import Mathlib

/-!
# Verification of `writer_cm` (atomic-write-path)

Shallow embedding of `src/writer_cm/writer_cm.py`: a context manager that
atomically writes a file to a destination path by staging the write in a
temporary sibling directory and publishing it with an atomic rename.

The filesystem is modelled as finite association lists of directories and
files keyed by absolute paths (lists of name components below the root; the
root itself is the empty list).  The destination path is taken
already resolved (`Path(destination).expanduser().resolve()` is executed once
at entry and is not modelled further).  Bytes are natural numbers; text
content is its encoded bytes, so one `Content` type covers both.

Python exceptions relevant to the code are modelled by `PyErr`; the caller's
scope is modelled by a `CallerAction` (write the staging file, raise, write
then raise, or do nothing).  Fallible filesystem primitives return
`Except PyErr FS`; a failing primitive leaves the state unchanged, and the
composite operation pairs every outcome with the final filesystem state.
-/

set_option autoImplicit false

namespace WriterCM

/-- A path: the list of name components below the filesystem root.
`[]` is the root directory itself. -/
abbrev AbsPath := List String

/-- File contents, as a list of bytes. -/
abbrev Content := List Nat

/-- The Python exception classes that the code can raise or suppress.
`fileExistsError` and `fileNotFoundError` carry the path that the message
names; `callerError` stands for an arbitrary exception raised inside the
caller's scope. -/
inductive PyErr where
  | fileExistsError (path : AbsPath)
  | isADirectoryError
  | permissionError
  | fileNotFoundError (path : AbsPath)
  | lookupError
  | callerError (code : Nat)
deriving DecidableEq, Repr

/-- Metadata of a directory: permission bits plus optional user/group owner. -/
structure DirMeta where
  perms : Nat
  user : Option String
  group : Option String
deriving DecidableEq, Repr

/-- Metadata of a regular file: its bytes, permission bits, optional owner. -/
structure FileMeta where
  content : Content
  perms : Nat
  user : Option String
  group : Option String
deriving DecidableEq, Repr

/-- The filesystem state.  `unwritableDirs` lists directories in which the
process may not create entries (EACCES on mkdir); `chownAllowed` says whether
the process has the privilege to change ownership (EPERM otherwise). -/
structure FS where
  dirs : List (AbsPath × DirMeta)
  files : List (AbsPath × FileMeta)
  unwritableDirs : List AbsPath
  chownAllowed : Bool
deriving DecidableEq, Repr

/-- Lookup in an association list keyed by paths. -/
def alookup {α : Type} : List (AbsPath × α) → AbsPath → Option α
  | [], _ => none
  | (k, v) :: t, p => if k = p then some v else alookup t p

/-- Insert or replace the entry at key `p`. -/
def aset {α : Type} (l : List (AbsPath × α)) (p : AbsPath) (v : α) :
    List (AbsPath × α) :=
  (p, v) :: l.filter (fun x => x.1 ≠ p)

/-- Is `p` a directory? The root `[]` always is. -/
def FS.isDir (fs : FS) (p : AbsPath) : Bool :=
  p = [] || (alookup fs.dirs p).isSome

/-- Is `p` a regular file? -/
def FS.isFile (fs : FS) (p : AbsPath) : Bool :=
  (alookup fs.files p).isSome

/-- Does `p` exist at all (as directory or file)? -/
def FS.exists' (fs : FS) (p : AbsPath) : Bool :=
  fs.isDir p || fs.isFile p

/-- The parent path (all components but the last). -/
def parentOf (p : AbsPath) : AbsPath := p.dropLast

/-- The final name component (`Path.name`). -/
def lastName (p : AbsPath) : String := (p.getLast?).getD ""

/-- `Path.mkdir()` (non-recursive).  Kernel semantics: an existing target
gives EEXIST, a missing parent ENOENT, a parent without write permission
EACCES; otherwise the directory is created with mode `mode` (the mode is
irrelevant here because the code chmods right after a successful mkdir). -/
def mkdir (fs : FS) (p : AbsPath) (mode : Nat) : Except PyErr FS :=
  if fs.exists' p then .error (.fileExistsError p)
  else if ¬ fs.isDir (parentOf p) then .error (.fileNotFoundError p)
  else if parentOf p ∈ fs.unwritableDirs then .error .permissionError
  else .ok { fs with dirs := aset fs.dirs p ⟨mode, none, none⟩ }

/-- `Path.chmod(permissions)`: set the permission bits of an existing file or
directory; ENOENT if the path does not exist. -/
def chmod (fs : FS) (p : AbsPath) (permissions : Nat) : Except PyErr FS :=
  match alookup fs.files p with
  | some m => .ok { fs with files := aset fs.files p ({ m with perms := permissions }) }
  | none =>
    match alookup fs.dirs p with
    | some m => .ok { fs with dirs := aset fs.dirs p ({ m with perms := permissions }) }
    | none => .error (.fileNotFoundError p)

/-- `shutil.chown(path, user=user, group=group)`: change ownership of an
existing path; a `None` argument leaves that field as it was.  EPERM when the
process lacks the privilege, ENOENT when the path does not exist. -/
def chown (fs : FS) (p : AbsPath) (user group : Option String) :
    Except PyErr FS :=
  match alookup fs.files p with
  | some m =>
    if fs.chownAllowed then
      let m2 : FileMeta :=
        { m with user := if user.isSome then user else m.user,
                 group := if group.isSome then group else m.group }
      .ok { fs with files := aset fs.files p m2 }
    else .error .permissionError
  | none =>
    match alookup fs.dirs p with
    | some m =>
      if fs.chownAllowed then
        let m2 : DirMeta :=
          { m with user := if user.isSome then user else m.user,
                   group := if group.isSome then group else m.group }
        .ok { fs with dirs := aset fs.dirs p m2 }
      else .error .permissionError
    | none => .error (.fileNotFoundError p)

/-- `_set_properties(path, permissions, user, group)`: chmod, then chown when
a user or group was given.  On failure the error is paired with the state
reached so far (a failed chown does not undo the chmod). -/
def set_properties (fs : FS) (path : AbsPath) (permissions : Nat)
    (user group : Option String) : Except (PyErr × FS) FS :=
  match chmod fs path permissions with
  | .error e => .error (e, fs)
  | .ok fs1 =>
    if (user.isSome || group.isSome) = true then
      match chown fs1 path user group with
      | .error e => .error (e, fs1)
      | .ok fs2 => .ok fs2
    else .ok fs1

/-- `atomicwrites.move_atomic(src, dst)`: atomic rename that fails with
EEXIST (naming the destination) when `dst` already exists; ENOENT when `src`
does not.  On success the file moves to `dst` keeping its metadata. -/
def move_atomic (fs : FS) (src dst : AbsPath) : Except PyErr FS :=
  match alookup fs.files src with
  | none => .error (.fileNotFoundError src)
  | some m =>
    if fs.exists' dst then .error (.fileExistsError dst)
    else .ok { fs with files := aset (fs.files.filter (fun x => x.1 ≠ src)) dst m }

/-- `atomicwrites.replace_atomic(src, dst)`: atomic rename that replaces any
existing file at `dst`; ENOENT when `src` does not exist. -/
def replace_atomic (fs : FS) (src dst : AbsPath) : Except PyErr FS :=
  match alookup fs.files src with
  | none => .error (.fileNotFoundError src)
  | some m =>
    .ok { fs with files := aset (fs.files.filter (fun x => x.1 ≠ src)) dst m }

/-- The keyword arguments of `writer_cm`, with the source defaults:
`dir_perms = S_IRUSR|S_IWUSR|S_IXUSR|S_IRGRP|S_IXGRP` (0o750) and
`file_perms = S_IRUSR|S_IWUSR` (0o600). -/
structure Config where
  overwrite : Bool := false
  dir_perms : Nat := 0o750
  file_perms : Nat := 0o600
  user : Option String := none
  group : Option String := none
deriving DecidableEq, Repr

/-- The exception classes suppressed by the provisioning loop:
`suppress(FileExistsError, IsADirectoryError, PermissionError)`. -/
def suppressedErr : PyErr → Bool
  | .fileExistsError _ => true
  | .isADirectoryError => true
  | .permissionError => true
  | _ => false

/-- One iteration of the provisioning loop: inside the `suppress` block,
`path_parent.mkdir()` then `_set_properties(path_parent, dir_perms, user,
group)`.  An error of a suppressed class aborts the block (keeping the state
reached so far) and the loop continues; any other error propagates. -/
def provisionStep (cfg : Config) (fs : FS) (p : AbsPath) :
    Except (PyErr × FS) FS :=
  match mkdir fs p 0o777 with
  | .error e => if suppressedErr e then .ok fs else .error (e, fs)
  | .ok fs1 =>
    match chmod fs1 p cfg.dir_perms with
    | .error e => if suppressedErr e then .ok fs1 else .error (e, fs1)
    | .ok fs2 =>
      if (cfg.user.isSome || cfg.group.isSome) = true then
        match chown fs2 p cfg.user cfg.group with
        | .error e => if suppressedErr e then .ok fs2 else .error (e, fs2)
        | .ok fs3 => .ok fs3
      else .ok fs2

/-- The provisioning loop over the list of ancestor prefixes. -/
def provision (cfg : Config) : FS → List AbsPath → Except (PyErr × FS) FS
  | fs, [] => .ok fs
  | fs, p :: ps =>
    match provisionStep cfg fs p with
    | .error e => .error e
    | .ok fs1 => provision cfg fs1 ps

/-- `for idx, _ in enumerate(parts): Path(*parts[:idx+1])` — every prefix of
the parent path, shallowest first.  Python's `parts` includes the root, so
the list starts with `[]`. -/
def prefixList (p : AbsPath) : List AbsPath :=
  (List.range (p.length + 1)).map (fun i => p.take i)

/-- The ancestor chain strictly below the root: the one-component extensions
of `base` along the list of remaining components, shallowest first.
`prefixList p = [] :: chainFrom [] p`. -/
def chainFrom (base : AbsPath) : List String → List AbsPath
  | [] => []
  | x :: xs => (base ++ [x]) :: chainFrom (base ++ [x]) xs

/-- The name of the staging directory:
`TemporaryDirectory(suffix=".tmp", prefix=name, dir=parent)` produces
`name ++ rand ++ ".tmp"`, with `rand` the unguessable random part. -/
def tempDirName (name rand : String) : String := name ++ rand ++ ".tmp"

/-- `TemporaryDirectory.__exit__`: recursively remove the staging directory
and everything below it. -/
def cleanupTemp (fs : FS) (tempDir : AbsPath) : FS :=
  { fs with
    dirs := fs.dirs.filter
      (fun x => ¬ (x.1 = tempDir ∨ tempDir.isPrefixOf x.1)),
    files := fs.files.filter
      (fun x => ¬ (x.1 = tempDir ∨ tempDir.isPrefixOf x.1)) }

/-- What the caller does with the yielded staging path: write `c` to it,
raise, write and then raise, or return without creating the file. -/
inductive CallerAction where
  | write (c : Content)
  | raiseErr (e : PyErr)
  | writeThenRaise (c : Content) (e : PyErr)
  | noWrite
deriving DecidableEq, Repr

/-- The caller creating/overwriting the staging file (mode `w`/`wb`). -/
def writeFile (fs : FS) (p : AbsPath) (c : Content) : FS :=
  { fs with files := aset fs.files p ⟨c, 0o644, none, none⟩ }

/-- Run the caller's scope on the yielded staging path. -/
def runCaller (fs : FS) (source : AbsPath) : CallerAction →
    Except (PyErr × FS) FS
  | .write c => .ok (writeFile fs source c)
  | .raiseErr e => .error (e, fs)
  | .writeThenRaise c e => .error (e, writeFile fs source c)
  | .noWrite => .ok fs

/-- The publish and finalisation steps after the caller's scope exits
normally: `replace_atomic`/`move_atomic` depending on `overwrite`, then
`_set_properties(destination, file_perms, user, group)`; the staging
directory is removed on every path out. -/
def afterYield (cfg : Config) (source destination tempDir : AbsPath)
    (fs : FS) : Option PyErr × FS :=
  match (if cfg.overwrite then replace_atomic fs source destination
         else move_atomic fs source destination) with
  | .error e => (some e, cleanupTemp fs tempDir)
  | .ok fs4 =>
    match set_properties fs4 destination cfg.file_perms cfg.user cfg.group with
    | .error (e, fs5) => (some e, cleanupTemp fs5 tempDir)
    | .ok fs5 => (none, cleanupTemp fs5 tempDir)

/-- The `with TemporaryDirectory(...)` block: create the staging directory
(mkdtemp uses mode 0o700), yield `temp_dir/name` to the caller, and on any
exit remove the staging directory; a caller error skips publish and
propagates after cleanup. -/
def withTempDir (cfg : Config) (destination parent : AbsPath) (name : String)
    (rand : String) (action : CallerAction) (fs1 : FS) : Option PyErr × FS :=
  let tempDir := parent ++ [tempDirName name rand]
  match mkdir fs1 tempDir 0o700 with
  | .error e => (some e, fs1)
  | .ok fs2 =>
    let source := tempDir ++ [name]
    match runCaller fs2 source action with
    | .error (e, fs3) => (some e, cleanupTemp fs3 tempDir)
    | .ok fs3 => afterYield cfg source destination tempDir fs3

/-- `writer_cm(destination, overwrite, dir_perms, file_perms, user, group)`,
run to completion against filesystem `fs0` with the caller's scope `action`.
`destination` is the already-resolved path; `rand` resolves the
nondeterministic choice of the staging directory's unique name.  The result
pairs the exception propagated to the caller (if any) with the final
filesystem state. -/
def writer_cm (fs0 : FS) (destination : AbsPath) (cfg : Config)
    (rand : String) (action : CallerAction) : Option PyErr × FS :=
  let parent := parentOf destination
  match provision cfg fs0 (prefixList parent) with
  | .error (e, fs1) => (some e, fs1)
  | .ok fs1 =>
    withTempDir cfg destination parent (lastName destination) rand action fs1

/-- Read the destination's bytes, as the tests do with `open(path).read()`. -/
def readFile (fs : FS) (p : AbsPath) : Option Content :=
  (alookup fs.files p).map FileMeta.content

/-- No trace of the staging directory `tempDir` remains in `fs`. -/
def stagingFree (fs : FS) (tempDir : AbsPath) : Bool :=
  fs.dirs.all (fun x => ¬ (x.1 = tempDir ∨ tempDir.isPrefixOf x.1)) &&
  fs.files.all (fun x => ¬ (x.1 = tempDir ∨ tempDir.isPrefixOf x.1))

end WriterCM

/-! ## Concrete filesystem scenarios used to instantiate the theorems -/

namespace WriterCM

/-- A filesystem with a single pre-existing directory `/tmp` (mode 0o755),
no files, everything writable, chown permitted. -/
def fsTmp : FS := ⟨[(["tmp"], ⟨0o755, none, none⟩)], [], [], true⟩

/-- `fsTmp` plus an existing file `/tmp/file.txt` with content `[9]`. -/
def fsTmpFile : FS :=
  ⟨[(["tmp"], ⟨0o755, none, none⟩)], [(["tmp", "file.txt"], ⟨[9], 0o600, none, none⟩)], [], true⟩

/-- A filesystem where the process may not change ownership (as for an
unprivileged process passing `user=`). -/
def fsNoChown : FS := ⟨[(["tmp"], ⟨0o755, none, none⟩)], [], [], false⟩

/-- The state reached inside the provisioning loop of
`writer_cm(/tmp/d/f.txt, user="alice")` on `fsNoChown` right after
`Path("/tmp/d").mkdir()` and the chmod succeeded: the next statement is the
`shutil.chown` call. -/
def fsNoChownMid : FS :=
  ⟨[(["tmp", "d"], ⟨0o750, none, none⟩), (["tmp"], ⟨0o755, none, none⟩)], [], [], false⟩

/-- A configuration requesting ownership by user `alice`. -/
def cfgAlice : Config := { user := some "alice" }

/-- A filesystem with an existing directory `/a` that the process may not
write into (mode such as 0o555 owned by another user). -/
def fsUnwritable : FS := ⟨[(["a"], ⟨0o755, none, none⟩)], [], [["a"]], true⟩

end WriterCM

/-! ## Association-list and path lemmas -/

namespace WriterCM

theorem alookup_aset_self {α : Type} (l : List (AbsPath × α)) (p : AbsPath)
    (v : α) : alookup (aset l p v) p = some v := by
  simp [aset, alookup]

theorem alookup_aset_ne {α : Type} (l : List (AbsPath × α)) (p q : AbsPath)
    (v : α) (h : q ≠ p) : alookup (aset l p v) q = alookup l q := by
  unfold aset
  have h2 : alookup (l.filter (fun x => x.1 ≠ p)) q = alookup l q := by
    induction l with
    | nil => rfl
    | cons hd tl ih =>
      by_cases hk : hd.1 = p
      · rw [List.filter_cons_of_neg (by simp [hk])]
        rw [ih]
        have : hd.1 ≠ q := by rw [hk]; exact fun hc => h hc.symm
        obtain ⟨k, v2⟩ := hd
        simp only [alookup]
        rw [if_neg this]
      · rw [List.filter_cons_of_pos (by simp [hk])]
        obtain ⟨k, v2⟩ := hd
        simp only [alookup]
        by_cases hkq : k = q
        · rw [if_pos hkq, if_pos hkq]
        · rw [if_neg hkq, if_neg hkq, ih]
  simp only [alookup]
  rw [if_neg (fun hc => h hc.symm), h2]

theorem alookup_filter_keep {α : Type} (pr : AbsPath → Bool)
    (l : List (AbsPath × α)) (q : AbsPath) (h : pr q = true) :
    alookup (l.filter (fun x => pr x.1)) q = alookup l q := by
  induction l with
  | nil => rfl
  | cons hd tl ih =>
    obtain ⟨k, v⟩ := hd
    by_cases hk : pr k = true
    · rw [List.filter_cons_of_pos (by simpa using hk)]
      simp only [alookup]
      by_cases hkq : k = q
      · rw [if_pos hkq, if_pos hkq]
      · rw [if_neg hkq, if_neg hkq, ih]
    · rw [List.filter_cons_of_neg (by simpa using hk)]
      simp only [alookup]
      have hkq : k ≠ q := fun hc => hk (hc ▸ h)
      rw [if_neg hkq, ih]

theorem all_filter_self {α : Type} (pr : (AbsPath × α) → Bool)
    (l : List (AbsPath × α)) : (l.filter pr).all pr = true := by
  induction l with
  | nil => rfl
  | cons hd tl ih =>
    by_cases hk : pr hd = true
    · rw [List.filter_cons_of_pos hk]
      simp [List.all_cons, hk, ih]
    · rw [List.filter_cons_of_neg (by simp [hk])]
      exact ih

theorem parentOf_concat (l : AbsPath) (a : String) : parentOf (l ++ [a]) = l :=
  List.dropLast_concat

theorem lastName_concat (l : AbsPath) (a : String) : lastName (l ++ [a]) = a := by
  simp [lastName, List.getLast?_concat]

theorem tempDirName_ne (name rand : String) : tempDirName name rand ≠ name := by
  intro h
  have h2 : (tempDirName name rand).length = name.length := by rw [h]
  rw [tempDirName, String.length_append, String.length_append] at h2
  have h3 : (".tmp" : String).length = 4 := rfl
  omega

theorem concat_ne_concat {p : AbsPath} {a b : String} (h : a ≠ b) :
    p ++ [a] ≠ p ++ [b] := by
  intro hc
  exact h (by simpa using List.append_cancel_left hc)

theorem isPrefixOf_length {p q : AbsPath} (h : p.isPrefixOf q = true) :
    p.length ≤ q.length :=
  (List.isPrefixOf_iff_prefix.mp h).length_le

theorem isPrefixOf_false_of_lt {p q : AbsPath} (h : q.length < p.length) :
    p.isPrefixOf q = false := by
  cases h2 : p.isPrefixOf q with
  | false => rfl
  | true => exact absurd (isPrefixOf_length h2) (Nat.not_le.mpr h)

theorem tempDir_not_prefix_dest (parent : AbsPath) (name rand : String) :
    (parent ++ [tempDirName name rand]).isPrefixOf (parent ++ [name]) = false := by
  cases h2 : (parent ++ [tempDirName name rand]).isPrefixOf (parent ++ [name]) with
  | false => rfl
  | true =>
    have h3 := (List.isPrefixOf_iff_prefix.mp h2).eq_of_length (by simp)
    exact absurd (by simpa using List.append_cancel_left h3)
      (tempDirName_ne name rand)

theorem tempDir_ne_dest (parent : AbsPath) (name rand : String) :
    parent ++ [name] ≠ parent ++ [tempDirName name rand] :=
  concat_ne_concat (fun h => tempDirName_ne name rand h.symm)

end WriterCM

/-! ## Frame lemmas for the filesystem operations -/

namespace WriterCM

/-- The filesystem state carried by an outcome (exceptions carry the state
reached when they were raised). -/
def stateOf : Except (PyErr × FS) FS → FS
  | .ok fs => fs
  | .error (_, fs) => fs

theorem mkdir_ok_inv {fs fs' : FS} {p : AbsPath} {mode : Nat}
    (h : mkdir fs p mode = .ok fs') :
    fs' = { fs with dirs := aset fs.dirs p ⟨mode, none, none⟩ } ∧
    fs.exists' p = false := by
  unfold mkdir at h
  split at h
  · exact absurd h (by simp)
  · split at h
    · exact absurd h (by simp)
    · split at h
      · exact absurd h (by simp)
      · exact ⟨(Except.ok.inj h).symm, by simp_all⟩

theorem chmod_ok_files_frame {fs fs' : FS} {p q : AbsPath} {perms : Nat}
    (h : chmod fs p perms = .ok fs') (hq : q ≠ p) :
    alookup fs'.files q = alookup fs.files q := by
  unfold chmod at h
  split at h
  · cases Except.ok.inj h
    exact alookup_aset_ne _ _ _ _ hq
  · split at h
    · cases Except.ok.inj h; rfl
    · exact absurd h (by simp)

theorem chmod_ok_dirs_frame {fs fs' : FS} {p q : AbsPath} {perms : Nat}
    (h : chmod fs p perms = .ok fs') (hq : q ≠ p) :
    alookup fs'.dirs q = alookup fs.dirs q := by
  unfold chmod at h
  split at h
  · cases Except.ok.inj h; rfl
  · split at h
    · cases Except.ok.inj h
      exact alookup_aset_ne _ _ _ _ hq
    · exact absurd h (by simp)

theorem chmod_ok_flags {fs fs' : FS} {p : AbsPath} {perms : Nat}
    (h : chmod fs p perms = .ok fs') :
    fs'.unwritableDirs = fs.unwritableDirs ∧ fs'.chownAllowed = fs.chownAllowed := by
  unfold chmod at h
  split at h
  · cases Except.ok.inj h; exact ⟨rfl, rfl⟩
  · split at h
    · cases Except.ok.inj h; exact ⟨rfl, rfl⟩
    · exact absurd h (by simp)

theorem chown_ok_files_frame {fs fs' : FS} {p q : AbsPath} {u g : Option String}
    (h : chown fs p u g = .ok fs') (hq : q ≠ p) :
    alookup fs'.files q = alookup fs.files q := by
  unfold chown at h
  split at h
  · split at h
    · cases Except.ok.inj h
      exact alookup_aset_ne _ _ _ _ hq
    · exact absurd h (by simp)
  · split at h
    · split at h
      · cases Except.ok.inj h; rfl
      · exact absurd h (by simp)
    · exact absurd h (by simp)

theorem chown_ok_dirs_frame {fs fs' : FS} {p q : AbsPath} {u g : Option String}
    (h : chown fs p u g = .ok fs') (hq : q ≠ p) :
    alookup fs'.dirs q = alookup fs.dirs q := by
  unfold chown at h
  split at h
  · split at h
    · cases Except.ok.inj h; rfl
    · exact absurd h (by simp)
  · split at h
    · split at h
      · cases Except.ok.inj h
        exact alookup_aset_ne _ _ _ _ hq
      · exact absurd h (by simp)
    · exact absurd h (by simp)

theorem chown_ok_flags {fs fs' : FS} {p : AbsPath} {u g : Option String}
    (h : chown fs p u g = .ok fs') :
    fs'.unwritableDirs = fs.unwritableDirs ∧ fs'.chownAllowed = fs.chownAllowed := by
  unfold chown at h
  split at h
  · split at h
    · cases Except.ok.inj h; exact ⟨rfl, rfl⟩
    · exact absurd h (by simp)
  · split at h
    · split at h
      · cases Except.ok.inj h; exact ⟨rfl, rfl⟩
      · exact absurd h (by simp)
    · exact absurd h (by simp)

end WriterCM

/-! ## Frame lemmas for provisioning, publish and cleanup -/

namespace WriterCM

theorem mkdir_ok_not_file {fs fs1 : FS} {p : AbsPath} {mode : Nat}
    (h : mkdir fs p mode = .ok fs1) : alookup fs1.files p = none := by
  obtain ⟨h1, h2⟩ := mkdir_ok_inv h
  simp only [FS.exists', FS.isDir, FS.isFile, Bool.or_eq_false_iff] at h2
  rw [h1]
  exact Option.not_isSome_iff_eq_none.mp (by simp [h2.2])

theorem chmod_files_of_none {fs fs' : FS} {p : AbsPath} {perms : Nat}
    (hnf : alookup fs.files p = none) (h : chmod fs p perms = .ok fs') :
    fs'.files = fs.files := by
  unfold chmod at h
  split at h
  · next m heq => rw [hnf] at heq; exact absurd heq (by simp)
  · split at h
    · cases Except.ok.inj h; rfl
    · exact absurd h (by simp)

theorem chown_files_of_none {fs fs' : FS} {p : AbsPath} {u g : Option String}
    (hnf : alookup fs.files p = none) (h : chown fs p u g = .ok fs') :
    fs'.files = fs.files := by
  unfold chown at h
  split at h
  · next m heq => rw [hnf] at heq; exact absurd heq (by simp)
  · split at h
    · split at h
      · cases Except.ok.inj h; rfl
      · exact absurd h (by simp)
    · exact absurd h (by simp)

theorem provisionStep_files (cfg : Config) (fs : FS) (p : AbsPath) :
    (stateOf (provisionStep cfg fs p)).files = fs.files := by
  unfold provisionStep
  cases hm : mkdir fs p 0o777 with
  | error e =>
    by_cases he : suppressedErr e = true <;> simp [stateOf, he]
  | ok fs1 =>
    have hf1 : fs1.files = fs.files := by rw [(mkdir_ok_inv hm).1]
    have hnf1 : alookup fs1.files p = none := mkdir_ok_not_file hm
    cases hc : chmod fs1 p cfg.dir_perms with
    | error e =>
      by_cases he : suppressedErr e = true <;> simp [stateOf, he, hf1, hc]
    | ok fs2 =>
      have hf2 : fs2.files = fs1.files := chmod_files_of_none hnf1 hc
      have hnf2 : alookup fs2.files p = none := by rw [hf2]; exact hnf1
      by_cases hu : (cfg.user.isSome || cfg.group.isSome) = true
      · cases hw : chown fs2 p cfg.user cfg.group with
        | error e =>
          by_cases he : suppressedErr e = true <;>
            simp [stateOf, he, hu, hf2, hf1, hc, hw]
        | ok fs3 =>
          have hf3 : fs3.files = fs2.files := chown_files_of_none hnf2 hw
          simp [stateOf, hu, hf3, hf2, hf1, hc, hw]
      · simp [stateOf, hu, hf2, hf1, hc]

end WriterCM

namespace WriterCM

theorem provisionStep_dirs_frame (cfg : Config) (fs : FS) (p q : AbsPath)
    (hq : q ≠ p) :
    alookup (stateOf (provisionStep cfg fs p)).dirs q = alookup fs.dirs q := by
  unfold provisionStep
  cases hm : mkdir fs p 0o777 with
  | error e =>
    by_cases he : suppressedErr e = true <;> simp [stateOf, he]
  | ok fs1 =>
    have hd1 : alookup fs1.dirs q = alookup fs.dirs q := by
      rw [(mkdir_ok_inv hm).1]
      exact alookup_aset_ne _ _ _ _ hq
    cases hc : chmod fs1 p cfg.dir_perms with
    | error e =>
      by_cases he : suppressedErr e = true <;> simp [stateOf, he, hd1, hc]
    | ok fs2 =>
      have hd2 : alookup fs2.dirs q = alookup fs1.dirs q :=
        chmod_ok_dirs_frame hc hq
      by_cases hu : (cfg.user.isSome || cfg.group.isSome) = true
      · cases hw : chown fs2 p cfg.user cfg.group with
        | error e =>
          by_cases he : suppressedErr e = true <;>
            simp [stateOf, he, hu, hd2, hd1, hc, hw]
        | ok fs3 =>
          have hd3 : alookup fs3.dirs q = alookup fs2.dirs q :=
            chown_ok_dirs_frame hw hq
          simp [stateOf, hu, hd3, hd2, hd1, hc, hw]
      · simp [stateOf, hu, hd2, hd1, hc]

theorem provisionStep_flags (cfg : Config) (fs : FS) (p : AbsPath) :
    (stateOf (provisionStep cfg fs p)).unwritableDirs = fs.unwritableDirs ∧
    (stateOf (provisionStep cfg fs p)).chownAllowed = fs.chownAllowed := by
  unfold provisionStep
  cases hm : mkdir fs p 0o777 with
  | error e =>
    by_cases he : suppressedErr e = true <;> simp [stateOf, he]
  | ok fs1 =>
    have h1 : fs1.unwritableDirs = fs.unwritableDirs ∧
        fs1.chownAllowed = fs.chownAllowed := by
      rw [(mkdir_ok_inv hm).1]; exact ⟨rfl, rfl⟩
    cases hc : chmod fs1 p cfg.dir_perms with
    | error e =>
      by_cases he : suppressedErr e = true <;>
        simp [stateOf, he, h1.1, h1.2, hc]
    | ok fs2 =>
      have h2 := chmod_ok_flags hc
      by_cases hu : (cfg.user.isSome || cfg.group.isSome) = true
      · cases hw : chown fs2 p cfg.user cfg.group with
        | error e =>
          by_cases he : suppressedErr e = true <;>
            simp [stateOf, he, hu, h2.1, h2.2, h1.1, h1.2, hc, hw]
        | ok fs3 =>
          have h3 := chown_ok_flags hw
          simp [stateOf, hu, h3.1, h3.2, h2.1, h2.2, h1.1, h1.2, hc, hw]
      · simp [stateOf, hu, h2.1, h2.2, h1.1, h1.2, hc]

theorem provision_files (cfg : Config) (ps : List AbsPath) : ∀ (fs : FS),
    (stateOf (provision cfg fs ps)).files = fs.files := by
  induction ps with
  | nil => intro fs; rfl
  | cons p ps ih =>
    intro fs
    unfold provision
    cases hs : provisionStep cfg fs p with
    | error e =>
      have := provisionStep_files cfg fs p
      rw [hs] at this
      exact this
    | ok fs1 =>
      have h1 : fs1.files = fs.files := by
        have := provisionStep_files cfg fs p
        rw [hs] at this
        exact this
      rw [← h1]
      exact ih fs1

theorem provision_dirs_frame (cfg : Config) (ps : List AbsPath) :
    ∀ (fs : FS) (q : AbsPath), (∀ p ∈ ps, q ≠ p) →
    alookup (stateOf (provision cfg fs ps)).dirs q = alookup fs.dirs q := by
  induction ps with
  | nil => intro fs q _; rfl
  | cons p ps ih =>
    intro fs q hq
    unfold provision
    cases hs : provisionStep cfg fs p with
    | error e =>
      have := provisionStep_dirs_frame cfg fs p q (hq p (by simp))
      rw [hs] at this
      exact this
    | ok fs1 =>
      have h1 : alookup fs1.dirs q = alookup fs.dirs q := by
        have := provisionStep_dirs_frame cfg fs p q (hq p (by simp))
        rw [hs] at this
        exact this
      rw [← h1]
      exact ih fs1 q (fun r hr => hq r (by simp [hr]))

theorem provision_flags (cfg : Config) (ps : List AbsPath) : ∀ (fs : FS),
    (stateOf (provision cfg fs ps)).unwritableDirs = fs.unwritableDirs ∧
    (stateOf (provision cfg fs ps)).chownAllowed = fs.chownAllowed := by
  induction ps with
  | nil => intro fs; exact ⟨rfl, rfl⟩
  | cons p ps ih =>
    intro fs
    unfold provision
    cases hs : provisionStep cfg fs p with
    | error e =>
      have := provisionStep_flags cfg fs p
      rw [hs] at this
      exact this
    | ok fs1 =>
      have h1 : fs1.unwritableDirs = fs.unwritableDirs ∧
          fs1.chownAllowed = fs.chownAllowed := by
        have := provisionStep_flags cfg fs p
        rw [hs] at this
        exact this
      rw [← h1.1, ← h1.2]
      exact ih fs1

end WriterCM

namespace WriterCM

theorem alookup_cleanup_dirs (fs : FS) (t q : AbsPath)
    (h : ¬(q = t ∨ t.isPrefixOf q = true)) :
    alookup (cleanupTemp fs t).dirs q = alookup fs.dirs q :=
  alookup_filter_keep (fun a => decide ¬(a = t ∨ t.isPrefixOf a = true))
    fs.dirs q (decide_eq_true h)

theorem alookup_cleanup_files (fs : FS) (t q : AbsPath)
    (h : ¬(q = t ∨ t.isPrefixOf q = true)) :
    alookup (cleanupTemp fs t).files q = alookup fs.files q :=
  alookup_filter_keep (fun a => decide ¬(a = t ∨ t.isPrefixOf a = true))
    fs.files q (decide_eq_true h)

theorem stagingFree_cleanupTemp (fs : FS) (t : AbsPath) :
    stagingFree (cleanupTemp fs t) t = true := by
  unfold stagingFree cleanupTemp
  rw [Bool.and_eq_true]
  exact ⟨all_filter_self _ _, all_filter_self _ _⟩

theorem writeFile_dirs (fs : FS) (p : AbsPath) (c : Content) :
    (writeFile fs p c).dirs = fs.dirs := rfl

theorem writeFile_flags (fs : FS) (p : AbsPath) (c : Content) :
    (writeFile fs p c).unwritableDirs = fs.unwritableDirs ∧
    (writeFile fs p c).chownAllowed = fs.chownAllowed := ⟨rfl, rfl⟩

theorem writeFile_lookup_self (fs : FS) (p : AbsPath) (c : Content) :
    alookup (writeFile fs p c).files p = some ⟨c, 0o644, none, none⟩ :=
  alookup_aset_self _ _ _

theorem writeFile_lookup_ne (fs : FS) (p q : AbsPath) (c : Content)
    (h : q ≠ p) : alookup (writeFile fs p c).files q = alookup fs.files q :=
  alookup_aset_ne _ _ _ _ h

theorem move_atomic_of_some {fs : FS} {src dst : AbsPath} {m : FileMeta}
    (hm : alookup fs.files src = some m) :
    move_atomic fs src dst =
      if fs.exists' dst then .error (.fileExistsError dst)
      else .ok { fs with
        files := aset (fs.files.filter (fun x => x.1 ≠ src)) dst m } := by
  unfold move_atomic
  rw [hm]

theorem replace_atomic_of_some {fs : FS} {src dst : AbsPath} {m : FileMeta}
    (hm : alookup fs.files src = some m) :
    replace_atomic fs src dst = .ok { fs with
      files := aset (fs.files.filter (fun x => x.1 ≠ src)) dst m } := by
  unfold replace_atomic
  rw [hm]

theorem move_atomic_of_none {fs : FS} {src dst : AbsPath}
    (hm : alookup fs.files src = none) :
    move_atomic fs src dst = .error (.fileNotFoundError src) := by
  unfold move_atomic
  rw [hm]

theorem replace_atomic_of_none {fs : FS} {src dst : AbsPath}
    (hm : alookup fs.files src = none) :
    replace_atomic fs src dst = .error (.fileNotFoundError src) := by
  unfold replace_atomic
  rw [hm]

theorem set_properties_file {fs : FS} {p : AbsPath} {m : FileMeta}
    {perms : Nat} {u g : Option String}
    (hm : alookup fs.files p = some m)
    (hca : (u.isSome || g.isSome) = true → fs.chownAllowed = true) :
    ∃ fs', set_properties fs p perms u g = .ok fs' ∧
      alookup fs'.files p = some ⟨m.content, perms,
        (if u.isSome then u else m.user), (if g.isSome then g else m.group)⟩ ∧
      (∀ q, q ≠ p → alookup fs'.files q = alookup fs.files q) ∧
      fs'.dirs = fs.dirs := by
  have hc : chmod fs p perms = .ok { fs with files := aset fs.files p ({ m with perms := perms }) } := by
    unfold chmod
    rw [hm]
  by_cases hu : (u.isSome || g.isSome) = true
  · have hcaT : fs.chownAllowed = true := hca hu
    have hw : chown { fs with files := aset fs.files p ({ m with perms := perms }) } p u g = .ok { fs with files := aset (aset fs.files p ({ m with perms := perms })) p ({ m with perms := perms, user := (if u.isSome then u else m.user), group := (if g.isSome then g else m.group) }) } := by
      unfold chown
      simp only [alookup_aset_self, hcaT, if_true]
    have h1 : set_properties fs p perms u g = .ok { fs with files := aset (aset fs.files p ({ m with perms := perms })) p ({ m with perms := perms, user := (if u.isSome then u else m.user), group := (if g.isSome then g else m.group) }) } := by
      simp [set_properties, hc, hu, hw]
    refine ⟨_, h1, ?_, fun q hq => ?_, rfl⟩
    · rw [alookup_aset_self]
    · rw [alookup_aset_ne _ _ _ _ hq, alookup_aset_ne _ _ _ _ hq]
  · have h1 : set_properties fs p perms u g = .ok { fs with files := aset fs.files p ({ m with perms := perms }) } := by
      simp [set_properties, hc, hu]
    have hu2 : u.isSome = false ∧ g.isSome = false := by
      constructor <;> [cases hq : u.isSome; cases hq : g.isSome] <;>
        first | rfl | exact absurd (by simp [hq]) hu
    refine ⟨_, h1, ?_, fun q hq => alookup_aset_ne _ _ _ _ hq, rfl⟩
    rw [alookup_aset_self, hu2.1, hu2.2]
    rfl

theorem writer_cm_unfold (fs0 : FS) (parent : AbsPath) (name : String)
    (cfg : Config) (rand : String) (action : CallerAction) :
    writer_cm fs0 (parent ++ [name]) cfg rand action =
      match provision cfg fs0 (prefixList parent) with
      | .error (e, fs1) => (some e, fs1)
      | .ok fs1 => withTempDir cfg (parent ++ [name]) parent name rand action fs1 := by
  simp only [writer_cm, parentOf_concat, lastName_concat]

theorem writer_cm_ok {fs0 fs1 : FS} {parent : AbsPath} {name : String}
    {cfg : Config} (rand : String) (action : CallerAction)
    (hp : provision cfg fs0 (prefixList parent) = .ok fs1) :
    writer_cm fs0 (parent ++ [name]) cfg rand action =
      withTempDir cfg (parent ++ [name]) parent name rand action fs1 := by
  rw [writer_cm_unfold, hp]

theorem withTempDir_ok {cfg : Config} {d parent : AbsPath} {name rand : String}
    {fs1 fs2 : FS} (action : CallerAction)
    (hm : mkdir fs1 (parent ++ [tempDirName name rand]) 0o700 = .ok fs2) :
    withTempDir cfg d parent name rand action fs1 =
      match runCaller fs2 ((parent ++ [tempDirName name rand]) ++ [name]) action with
      | .error (e, fs3) =>
          (some e, cleanupTemp fs3 (parent ++ [tempDirName name rand]))
      | .ok fs3 => afterYield cfg ((parent ++ [tempDirName name rand]) ++ [name]) d
          (parent ++ [tempDirName name rand]) fs3 := by
  simp only [withTempDir]
  rw [hm]

end WriterCM

namespace WriterCM

theorem chown_ok_file_look {fs fs' : FS} {p : AbsPath} {u g : Option String}
    {m : FileMeta} (hm : alookup fs.files p = some m)
    (h : chown fs p u g = .ok fs') :
    alookup fs'.files p = some ⟨m.content, m.perms, (if u.isSome then u else m.user), (if g.isSome then g else m.group)⟩ ∧
    (∀ q, q ≠ p → alookup fs'.files q = alookup fs.files q) ∧
    fs'.dirs = fs.dirs := by
  by_cases hA : fs.chownAllowed = true
  · have h2 : chown fs p u g = .ok { fs with files := aset fs.files p ({ m with user := (if u.isSome then u else m.user), group := (if g.isSome then g else m.group) }) } := by
      unfold chown
      simp [hm, hA]
    rw [h2] at h
    cases Except.ok.inj h
    exact ⟨alookup_aset_self _ _ _, fun q hq => alookup_aset_ne _ _ _ _ hq, rfl⟩
  · have hAf : fs.chownAllowed = false := by
      cases hq : fs.chownAllowed
      · rfl
      · exact absurd hq hA
    have h2 : chown fs p u g = .error .permissionError := by
      unfold chown
      simp [hm, hAf]
    rw [h2] at h
    exact absurd h (by simp)

theorem set_properties_state_file {fs : FS} {p : AbsPath} {perms : Nat}
    {u g : Option String} {m : FileMeta}
    (hm : alookup fs.files p = some m) :
    ∃ mf, alookup (stateOf (set_properties fs p perms u g)).files p = some mf ∧
      mf.content = m.content ∧ mf.perms = perms ∧
      (∀ q, q ≠ p → alookup (stateOf (set_properties fs p perms u g)).files q = alookup fs.files q) ∧
      (stateOf (set_properties fs p perms u g)).dirs = fs.dirs := by
  have hc : chmod fs p perms = .ok { fs with files := aset fs.files p ({ m with perms := perms }) } := by
    unfold chmod
    rw [hm]
  by_cases hu : (u.isSome || g.isSome) = true
  · cases hw : chown { fs with files := aset fs.files p ({ m with perms := perms }) } p u g with
    | error e =>
      have h1 : set_properties fs p perms u g = .error (e, { fs with files := aset fs.files p ({ m with perms := perms }) }) := by
        simp [set_properties, hc, hu, hw]
      rw [h1]
      exact ⟨{ m with perms := perms }, alookup_aset_self _ _ _, rfl, rfl,
        fun q hq => alookup_aset_ne _ _ _ _ hq, rfl⟩
    | ok fs2 =>
      have h1 : set_properties fs p perms u g = .ok fs2 := by
        simp [set_properties, hc, hu, hw]
      obtain ⟨e1, e2, e3⟩ :=
        chown_ok_file_look (alookup_aset_self fs.files p ({ m with perms := perms })) hw
      rw [h1]
      refine ⟨_, e1, rfl, rfl, fun q hq => ?_, e3⟩
      have e4 : alookup fs2.files q = alookup fs.files q := by
        have e5 := e2 q hq
        rw [e5]
        exact alookup_aset_ne _ _ _ _ hq
      exact e4
  · have h1 : set_properties fs p perms u g = .ok { fs with files := aset fs.files p ({ m with perms := perms }) } := by
      simp [set_properties, hc, hu]
    rw [h1]
    exact ⟨{ m with perms := perms }, alookup_aset_self _ _ _, rfl, rfl,
      fun q hq => alookup_aset_ne _ _ _ _ hq, rfl⟩

theorem withTempDir_error {cfg : Config} {d parent : AbsPath} {name rand : String}
    {fs1 : FS} {e : PyErr} (action : CallerAction)
    (hm : mkdir fs1 (parent ++ [tempDirName name rand]) 0o700 = .error e) :
    withTempDir cfg d parent name rand action fs1 = (some e, fs1) := by
  simp only [withTempDir]
  rw [hm]

theorem writer_cm_reach {fs0 fs1 fs2 : FS} {parent : AbsPath}
    {name rand : String} {cfg : Config} (action : CallerAction)
    (hp : provision cfg fs0 (prefixList parent) = .ok fs1)
    (hm : mkdir fs1 (parent ++ [tempDirName name rand]) 0o700 = .ok fs2) :
    writer_cm fs0 (parent ++ [name]) cfg rand action =
      match runCaller fs2 ((parent ++ [tempDirName name rand]) ++ [name]) action with
      | .error (e, fs3) =>
          (some e, cleanupTemp fs3 (parent ++ [tempDirName name rand]))
      | .ok fs3 => afterYield cfg ((parent ++ [tempDirName name rand]) ++ [name])
          (parent ++ [name]) (parent ++ [tempDirName name rand]) fs3 := by
  rw [writer_cm_ok rand action hp, withTempDir_ok action hm]

theorem writer_cm_reach_write {fs0 fs1 fs2 : FS} {parent : AbsPath}
    {name rand : String} {cfg : Config} (c : Content)
    (hp : provision cfg fs0 (prefixList parent) = .ok fs1)
    (hm : mkdir fs1 (parent ++ [tempDirName name rand]) 0o700 = .ok fs2) :
    writer_cm fs0 (parent ++ [name]) cfg rand (.write c) =
      afterYield cfg ((parent ++ [tempDirName name rand]) ++ [name])
        (parent ++ [name]) (parent ++ [tempDirName name rand])
        (writeFile fs2 ((parent ++ [tempDirName name rand]) ++ [name]) c) := by
  rw [writer_cm_reach (.write c) hp hm]
  rfl

theorem writer_cm_reach_noWrite {fs0 fs1 fs2 : FS} {parent : AbsPath}
    {name rand : String} {cfg : Config}
    (hp : provision cfg fs0 (prefixList parent) = .ok fs1)
    (hm : mkdir fs1 (parent ++ [tempDirName name rand]) 0o700 = .ok fs2) :
    writer_cm fs0 (parent ++ [name]) cfg rand .noWrite =
      afterYield cfg ((parent ++ [tempDirName name rand]) ++ [name])
        (parent ++ [name]) (parent ++ [tempDirName name rand]) fs2 := by
  rw [writer_cm_reach .noWrite hp hm]
  rfl

theorem writer_cm_reach_raise {fs0 fs1 fs2 : FS} {parent : AbsPath}
    {name rand : String} {cfg : Config} (e : PyErr)
    (hp : provision cfg fs0 (prefixList parent) = .ok fs1)
    (hm : mkdir fs1 (parent ++ [tempDirName name rand]) 0o700 = .ok fs2) :
    writer_cm fs0 (parent ++ [name]) cfg rand (.raiseErr e) =
      (some e, cleanupTemp fs2 (parent ++ [tempDirName name rand])) := by
  rw [writer_cm_reach (.raiseErr e) hp hm]
  rfl

theorem writer_cm_reach_writeRaise {fs0 fs1 fs2 : FS} {parent : AbsPath}
    {name rand : String} {cfg : Config} (c : Content) (e : PyErr)
    (hp : provision cfg fs0 (prefixList parent) = .ok fs1)
    (hm : mkdir fs1 (parent ++ [tempDirName name rand]) 0o700 = .ok fs2) :
    writer_cm fs0 (parent ++ [name]) cfg rand (.writeThenRaise c e) =
      (some e, cleanupTemp
        (writeFile fs2 ((parent ++ [tempDirName name rand]) ++ [name]) c)
        (parent ++ [tempDirName name rand])) := by
  rw [writer_cm_reach (.writeThenRaise c e) hp hm]
  rfl

theorem dest_ne_src (parent : AbsPath) (name rand : String) :
    parent ++ [name] ≠ (parent ++ [tempDirName name rand]) ++ [name] := by
  intro h
  have h2 := congrArg List.length h
  simp at h2

theorem dest_not_in_temp (parent : AbsPath) (name rand : String) :
    ¬(parent ++ [name] = parent ++ [tempDirName name rand] ∨
      (parent ++ [tempDirName name rand]).isPrefixOf (parent ++ [name]) = true) := by
  rintro (h1 | h2)
  · exact tempDir_ne_dest parent name rand h1
  · rw [tempDir_not_prefix_dest] at h2
    exact Bool.false_ne_true h2

theorem afterYield_of_pub_err {cfg : Config} {src dest tempDir : AbsPath}
    {fs3 : FS} {e : PyErr}
    (hpub : (if cfg.overwrite then replace_atomic fs3 src dest
             else move_atomic fs3 src dest) = .error e) :
    afterYield cfg src dest tempDir fs3 = (some e, cleanupTemp fs3 tempDir) := by
  unfold afterYield
  rw [hpub]

theorem afterYield_of_sp_ok {cfg : Config} {src dest tempDir : AbsPath}
    {fs3 R fs5 : FS}
    (hpub : (if cfg.overwrite then replace_atomic fs3 src dest
             else move_atomic fs3 src dest) = .ok R)
    (hsp : set_properties R dest cfg.file_perms cfg.user cfg.group = .ok fs5) :
    afterYield cfg src dest tempDir fs3 = (none, cleanupTemp fs5 tempDir) := by
  simp only [afterYield, hpub, hsp]

theorem afterYield_of_sp_err {cfg : Config} {src dest tempDir : AbsPath}
    {fs3 R fs5 : FS} {e : PyErr}
    (hpub : (if cfg.overwrite then replace_atomic fs3 src dest
             else move_atomic fs3 src dest) = .ok R)
    (hsp : set_properties R dest cfg.file_perms cfg.user cfg.group =
      .error (e, fs5)) :
    afterYield cfg src dest tempDir fs3 = (some e, cleanupTemp fs5 tempDir) := by
  simp only [afterYield, hpub, hsp]

theorem reach_files {fs0 fs1 fs2 : FS} {parent t : AbsPath} {cfg : Config}
    {mode : Nat} (hp : provision cfg fs0 (prefixList parent) = .ok fs1)
    (hm : mkdir fs1 t mode = .ok fs2) : fs2.files = fs0.files := by
  have h1 := provision_files cfg (prefixList parent) fs0
  rw [hp] at h1
  rw [(mkdir_ok_inv hm).1]
  exact h1

theorem reach_chownAllowed {fs0 fs1 fs2 : FS} {parent t : AbsPath}
    {cfg : Config} {mode : Nat}
    (hp : provision cfg fs0 (prefixList parent) = .ok fs1)
    (hm : mkdir fs1 t mode = .ok fs2) : fs2.chownAllowed = fs0.chownAllowed := by
  have h1 := (provision_flags cfg (prefixList parent) fs0).2
  rw [hp] at h1
  rw [(mkdir_ok_inv hm).1]
  exact h1

end WriterCM

/-! ## Claim C1: round-trip -/

namespace WriterCM

/-- Claim C1: for every content (text or binary, modelled as bytes) that the
caller writes to the yielded staging path, if the operation returns normally
(no exception propagates) then reading the destination afterwards returns
exactly that content, byte for byte. -/
theorem c1_round_trip (fs0 : FS) (parent : AbsPath) (name rand : String)
    (cfg : Config) (c : Content)
    (h : (writer_cm fs0 (parent ++ [name]) cfg rand (.write c)).1 = none) :
    readFile (writer_cm fs0 (parent ++ [name]) cfg rand (.write c)).2
      (parent ++ [name]) = some c := by
  cases hp : provision cfg fs0 (prefixList parent) with
  | error epair =>
    obtain ⟨e1, fsE⟩ := epair
    rw [writer_cm_unfold, hp] at h
    exact absurd h (by simp)
  | ok fs1 =>
    cases hm : mkdir fs1 (parent ++ [tempDirName name rand]) 0o700 with
    | error e =>
      rw [writer_cm_ok rand _ hp, withTempDir_error _ hm] at h
      exact absurd h (by simp)
    | ok fs2 =>
      rw [writer_cm_reach_write c hp hm] at h ⊢
      have hsrc : alookup (writeFile fs2 ((parent ++ [tempDirName name rand]) ++ [name]) c).files ((parent ++ [tempDirName name rand]) ++ [name]) = some ⟨c, 0o644, none, none⟩ :=
        writeFile_lookup_self _ _ _
      cases hpub : (if cfg.overwrite then replace_atomic (writeFile fs2 ((parent ++ [tempDirName name rand]) ++ [name]) c) ((parent ++ [tempDirName name rand]) ++ [name]) (parent ++ [name]) else move_atomic (writeFile fs2 ((parent ++ [tempDirName name rand]) ++ [name]) c) ((parent ++ [tempDirName name rand]) ++ [name]) (parent ++ [name])) with
      | error e =>
        rw [afterYield_of_pub_err hpub] at h
        exact absurd h (by simp)
      | ok R =>
        have hRdest : alookup R.files (parent ++ [name]) = some (⟨c, 0o644, none, none⟩ : FileMeta) := by
          cases hov : cfg.overwrite with
          | true =>
            rw [hov, if_pos rfl, replace_atomic_of_some hsrc] at hpub
            cases Except.ok.inj hpub
            exact alookup_aset_self _ _ _
          | false =>
            rw [hov, if_neg (by simp), move_atomic_of_some hsrc] at hpub
            split at hpub
            · exact absurd hpub (by simp)
            · cases Except.ok.inj hpub
              exact alookup_aset_self _ _ _
        cases hsp : set_properties R (parent ++ [name]) cfg.file_perms cfg.user cfg.group with
        | error epair =>
          obtain ⟨e, fs5⟩ := epair
          rw [afterYield_of_sp_err hpub hsp] at h
          exact absurd h (by simp)
        | ok fs5 =>
          rw [afterYield_of_sp_ok hpub hsp]
          obtain ⟨mf, hmf, hcnt, _hpm, _, _⟩ :=
            @set_properties_state_file R (parent ++ [name]) cfg.file_perms cfg.user cfg.group _ hRdest
          have hmf2 : alookup fs5.files (parent ++ [name]) = some mf := by
            rw [hsp] at hmf
            exact hmf
          show readFile (cleanupTemp fs5 (parent ++ [tempDirName name rand])) (parent ++ [name]) = some c
          unfold readFile
          rw [alookup_cleanup_files _ _ _ (dest_not_in_temp parent name rand), hmf2]
          simp [hcnt]

/-- Witness for C1 at a concrete input: write `[1, 2, 3]` to
`/tmp/file.txt` on `fsTmp` and read it back. -/
theorem c1_round_trip_witness :
    readFile (writer_cm fsTmp (["tmp"] ++ ["file.txt"]) {} "R" (.write [1, 2, 3])).2
      (["tmp"] ++ ["file.txt"]) = some [1, 2, 3] :=
  c1_round_trip fsTmp ["tmp"] "file.txt" "R" {} [1, 2, 3] (by decide)

end WriterCM

/-! ## Claims C5 (overwrite) and C2 (no-overwrite collision) -/

namespace WriterCM

/-- Claim C5: with `overwrite=true` and a file already at the destination,
a caller scope that writes `c` and exits normally leaves the destination
containing only the newly written content — the old content is fully
superseded by the atomic replace (this holds on every exit of the publish
phase, even if a later ownership application fails). -/
theorem c5_overwrite (fs0 fs1 fs2 : FS) (parent : AbsPath) (name rand : String)
    (cfg : Config) (c : Content) (m0 : FileMeta)
    (hov : cfg.overwrite = true)
    (_hex : alookup fs0.files (parent ++ [name]) = some m0)
    (hp : provision cfg fs0 (prefixList parent) = .ok fs1)
    (hm : mkdir fs1 (parent ++ [tempDirName name rand]) 0o700 = .ok fs2) :
    readFile (writer_cm fs0 (parent ++ [name]) cfg rand (.write c)).2
      (parent ++ [name]) = some c := by
  rw [writer_cm_reach_write c hp hm]
  have hsrc : alookup (writeFile fs2 ((parent ++ [tempDirName name rand]) ++ [name]) c).files ((parent ++ [tempDirName name rand]) ++ [name]) = some ⟨c, 0o644, none, none⟩ :=
    writeFile_lookup_self _ _ _
  have hpub : (if cfg.overwrite then replace_atomic (writeFile fs2 ((parent ++ [tempDirName name rand]) ++ [name]) c) ((parent ++ [tempDirName name rand]) ++ [name]) (parent ++ [name]) else move_atomic (writeFile fs2 ((parent ++ [tempDirName name rand]) ++ [name]) c) ((parent ++ [tempDirName name rand]) ++ [name]) (parent ++ [name])) = .ok { writeFile fs2 ((parent ++ [tempDirName name rand]) ++ [name]) c with files := aset ((writeFile fs2 ((parent ++ [tempDirName name rand]) ++ [name]) c).files.filter (fun x => x.1 ≠ (parent ++ [tempDirName name rand]) ++ [name])) (parent ++ [name]) ⟨c, 0o644, none, none⟩ } := by
    rw [hov, if_pos rfl, replace_atomic_of_some hsrc]
  have hRdest : alookup ({ writeFile fs2 ((parent ++ [tempDirName name rand]) ++ [name]) c with files := aset ((writeFile fs2 ((parent ++ [tempDirName name rand]) ++ [name]) c).files.filter (fun x => x.1 ≠ (parent ++ [tempDirName name rand]) ++ [name])) (parent ++ [name]) ⟨c, 0o644, none, none⟩ } : FS).files (parent ++ [name]) = some (⟨c, 0o644, none, none⟩ : FileMeta) :=
    alookup_aset_self _ _ _
  obtain ⟨mf, hmf, hcnt, _hpm, _, _⟩ :=
    @set_properties_state_file _ (parent ++ [name]) cfg.file_perms cfg.user cfg.group _ hRdest
  cases hsp : set_properties ({ writeFile fs2 ((parent ++ [tempDirName name rand]) ++ [name]) c with files := aset ((writeFile fs2 ((parent ++ [tempDirName name rand]) ++ [name]) c).files.filter (fun x => x.1 ≠ (parent ++ [tempDirName name rand]) ++ [name])) (parent ++ [name]) ⟨c, 0o644, none, none⟩ } : FS) (parent ++ [name]) cfg.file_perms cfg.user cfg.group with
  | error epair =>
    obtain ⟨e, fs5⟩ := epair
    rw [afterYield_of_sp_err hpub hsp]
    have hmf2 : alookup fs5.files (parent ++ [name]) = some mf := by
      rw [hsp] at hmf
      exact hmf
    show readFile (cleanupTemp fs5 (parent ++ [tempDirName name rand])) (parent ++ [name]) = some c
    unfold readFile
    rw [alookup_cleanup_files _ _ _ (dest_not_in_temp parent name rand), hmf2]
    simp [hcnt]
  | ok fs5 =>
    rw [afterYield_of_sp_ok hpub hsp]
    have hmf2 : alookup fs5.files (parent ++ [name]) = some mf := by
      rw [hsp] at hmf
      exact hmf
    show readFile (cleanupTemp fs5 (parent ++ [tempDirName name rand])) (parent ++ [name]) = some c
    unfold readFile
    rw [alookup_cleanup_files _ _ _ (dest_not_in_temp parent name rand), hmf2]
    simp [hcnt]

/-- Witness for C5: `/tmp/file.txt` holds `[9]`; overwriting it with `[1]`
leaves `[1]`. -/
theorem c5_overwrite_witness :
    readFile (writer_cm fsTmpFile (["tmp"] ++ ["file.txt"]) { overwrite := true } "R" (.write [1])).2
      (["tmp"] ++ ["file.txt"]) = some [1] :=
  c5_overwrite fsTmpFile fsTmpFile
    ⟨[(["tmp", "file.txtR.tmp"], ⟨0o700, none, none⟩), (["tmp"], ⟨0o755, none, none⟩)],
     [(["tmp", "file.txt"], ⟨[9], 0o600, none, none⟩)], [], true⟩
    ["tmp"] "file.txt" "R" { overwrite := true } [1] ⟨[9], 0o600, none, none⟩
    rfl (by decide) rfl rfl

/-- Claim C2: with `overwrite=false` and a file already present at the
destination at publish time, the operation fails with a
`FileExistsError` naming the destination path, and the destination's
content (its whole metadata) is unchanged. -/
theorem c2_collision (fs0 fs1 fs2 : FS) (parent : AbsPath) (name rand : String)
    (cfg : Config) (c : Content) (m0 : FileMeta)
    (hov : cfg.overwrite = false)
    (hex : alookup fs0.files (parent ++ [name]) = some m0)
    (hp : provision cfg fs0 (prefixList parent) = .ok fs1)
    (hm : mkdir fs1 (parent ++ [tempDirName name rand]) 0o700 = .ok fs2) :
    (writer_cm fs0 (parent ++ [name]) cfg rand (.write c)).1 =
      some (.fileExistsError (parent ++ [name])) ∧
    alookup (writer_cm fs0 (parent ++ [name]) cfg rand (.write c)).2.files
      (parent ++ [name]) = some m0 := by
  rw [writer_cm_reach_write c hp hm]
  have hsrc : alookup (writeFile fs2 ((parent ++ [tempDirName name rand]) ++ [name]) c).files ((parent ++ [tempDirName name rand]) ++ [name]) = some ⟨c, 0o644, none, none⟩ :=
    writeFile_lookup_self _ _ _
  have hex3 : alookup (writeFile fs2 ((parent ++ [tempDirName name rand]) ++ [name]) c).files (parent ++ [name]) = some m0 := by
    rw [writeFile_lookup_ne _ _ _ _ (dest_ne_src parent name rand), reach_files hp hm]
    exact hex
  have hexB : (writeFile fs2 ((parent ++ [tempDirName name rand]) ++ [name]) c).exists' (parent ++ [name]) = true := by
    unfold FS.exists' FS.isFile
    rw [hex3]
    simp
  have hpub : (if cfg.overwrite then replace_atomic (writeFile fs2 ((parent ++ [tempDirName name rand]) ++ [name]) c) ((parent ++ [tempDirName name rand]) ++ [name]) (parent ++ [name]) else move_atomic (writeFile fs2 ((parent ++ [tempDirName name rand]) ++ [name]) c) ((parent ++ [tempDirName name rand]) ++ [name]) (parent ++ [name])) = .error (.fileExistsError (parent ++ [name])) := by
    rw [hov, if_neg (by simp), move_atomic_of_some hsrc, hexB]
    simp
  rw [afterYield_of_pub_err hpub]
  refine ⟨rfl, ?_⟩
  show alookup (cleanupTemp (writeFile fs2 ((parent ++ [tempDirName name rand]) ++ [name]) c) (parent ++ [tempDirName name rand])).files (parent ++ [name]) = some m0
  rw [alookup_cleanup_files _ _ _ (dest_not_in_temp parent name rand)]
  exact hex3

/-- Witness for C2: `/tmp/file.txt` holds `[9]`; a non-overwriting write of
`[1]` fails with `FileExistsError` on `/tmp/file.txt` and leaves `[9]`. -/
theorem c2_collision_witness :
    (writer_cm fsTmpFile (["tmp"] ++ ["file.txt"]) {} "R" (.write [1])).1 =
      some (.fileExistsError (["tmp"] ++ ["file.txt"])) ∧
    alookup (writer_cm fsTmpFile (["tmp"] ++ ["file.txt"]) {} "R" (.write [1])).2.files
      (["tmp"] ++ ["file.txt"]) = some ⟨[9], 0o600, none, none⟩ :=
  c2_collision fsTmpFile fsTmpFile
    ⟨[(["tmp", "file.txtR.tmp"], ⟨0o700, none, none⟩), (["tmp"], ⟨0o755, none, none⟩)],
     [(["tmp", "file.txt"], ⟨[9], 0o600, none, none⟩)], [], true⟩
    ["tmp"] "file.txt" "R" {} [1] ⟨[9], 0o600, none, none⟩
    rfl (by decide) rfl rfl

end WriterCM

/-! ## Claim C4: no leftover staging state -/

namespace WriterCM

theorem ancestor_not_in_temp {q : AbsPath} (parent : AbsPath)
    (name rand : String) (hq : q.length ≤ parent.length) :
    ¬(q = parent ++ [tempDirName name rand] ∨
      (parent ++ [tempDirName name rand]).isPrefixOf q = true) := by
  have hlen : (parent ++ [tempDirName name rand]).length = parent.length + 1 := by
    simp
  rintro (h1 | h2)
  · rw [h1] at hq
    omega
  · have h3 := isPrefixOf_length h2
    omega

/-- Claim C4: on every exit path that reaches the staging phase — normal
completion, a caller error, or a publish/finalisation failure — no trace of
the staging directory (nor of anything inside it) remains in the final
filesystem state. -/
theorem c4_no_leftover_staging (fs0 fs1 fs2 : FS) (parent : AbsPath)
    (name rand : String) (cfg : Config) (action : CallerAction)
    (hp : provision cfg fs0 (prefixList parent) = .ok fs1)
    (hm : mkdir fs1 (parent ++ [tempDirName name rand]) 0o700 = .ok fs2) :
    stagingFree (writer_cm fs0 (parent ++ [name]) cfg rand action).2
      (parent ++ [tempDirName name rand]) = true := by
  rw [writer_cm_reach action hp hm]
  cases hrc : runCaller fs2 ((parent ++ [tempDirName name rand]) ++ [name]) action with
  | error epair =>
    obtain ⟨e, fs3⟩ := epair
    exact stagingFree_cleanupTemp _ _
  | ok fs3 =>
    show stagingFree (afterYield cfg ((parent ++ [tempDirName name rand]) ++ [name]) (parent ++ [name]) (parent ++ [tempDirName name rand]) fs3).2 (parent ++ [tempDirName name rand]) = true
    cases hpub : (if cfg.overwrite then replace_atomic fs3 ((parent ++ [tempDirName name rand]) ++ [name]) (parent ++ [name]) else move_atomic fs3 ((parent ++ [tempDirName name rand]) ++ [name]) (parent ++ [name])) with
    | error e =>
      rw [afterYield_of_pub_err hpub]
      exact stagingFree_cleanupTemp _ _
    | ok R =>
      cases hsp : set_properties R (parent ++ [name]) cfg.file_perms cfg.user cfg.group with
      | error epair =>
        obtain ⟨e, fs5⟩ := epair
        rw [afterYield_of_sp_err hpub hsp]
        exact stagingFree_cleanupTemp _ _
      | ok fs5 =>
        rw [afterYield_of_sp_ok hpub hsp]
        exact stagingFree_cleanupTemp _ _

/-- Witness for C4 at a concrete input: after a collision failure on
`fsTmpFile` no staging directory remains. -/
theorem c4_no_leftover_staging_witness :
    stagingFree (writer_cm fsTmpFile (["tmp"] ++ ["file.txt"]) {} "R" (.write [1])).2
      (["tmp"] ++ [tempDirName "file.txt" "R"]) = true :=
  c4_no_leftover_staging fsTmpFile fsTmpFile
    ⟨[(["tmp", "file.txtR.tmp"], ⟨0o700, none, none⟩), (["tmp"], ⟨0o755, none, none⟩)],
     [(["tmp", "file.txt"], ⟨[9], 0o600, none, none⟩)], [], true⟩
    ["tmp"] "file.txt" "R" {} (.write [1]) rfl rfl

end WriterCM

/-! ## Claim C3: caller error, and Claim C10: missing staging file -/

namespace WriterCM

theorem mem_prefixList_length {q parent : AbsPath} (h : q ∈ prefixList parent) :
    q.length ≤ parent.length := by
  unfold prefixList at h
  simp only [List.mem_map, List.mem_range] at h
  obtain ⟨i, _hi, hq⟩ := h
  rw [← hq, List.length_take]
  exact min_le_right _ _

theorem dest_not_mem_prefixList (parent : AbsPath) (a : String) :
    ∀ p ∈ prefixList parent, parent ++ [a] ≠ p := by
  intro p hp heq
  have h1 := mem_prefixList_length hp
  rw [← heq] at h1
  simp only [List.length_append, List.length_cons, List.length_nil] at h1
  omega

theorem ne_temp_of_short {q : AbsPath} (parent : AbsPath) (name rand : String)
    (hq : q.length ≤ parent.length) : q ≠ parent ++ [tempDirName name rand] := by
  intro h
  rw [h] at hq
  simp only [List.length_append, List.length_cons, List.length_nil] at hq
  omega

/-- Claim C3: when the caller's scope exits with an error of any kind
(modelled as `raiseErr e` or `writeThenRaise c e`), publish is skipped, the
original error propagates unchanged, the destination (file and directory
entries alike) is exactly as before the operation, the staging directory is
removed, and directories present after provisioning — including freshly
created ancestors — are not rolled back. -/
theorem c3_caller_error (fs0 fs1 fs2 : FS) (parent : AbsPath)
    (name rand : String) (cfg : Config) (action : CallerAction) (e : PyErr)
    (hact : action = .raiseErr e ∨ ∃ c, action = .writeThenRaise c e)
    (hp : provision cfg fs0 (prefixList parent) = .ok fs1)
    (hm : mkdir fs1 (parent ++ [tempDirName name rand]) 0o700 = .ok fs2) :
    (writer_cm fs0 (parent ++ [name]) cfg rand action).1 = some e ∧
    alookup (writer_cm fs0 (parent ++ [name]) cfg rand action).2.files
      (parent ++ [name]) = alookup fs0.files (parent ++ [name]) ∧
    alookup (writer_cm fs0 (parent ++ [name]) cfg rand action).2.dirs
      (parent ++ [name]) = alookup fs0.dirs (parent ++ [name]) ∧
    stagingFree (writer_cm fs0 (parent ++ [name]) cfg rand action).2
      (parent ++ [tempDirName name rand]) = true ∧
    (∀ q, q.length ≤ parent.length →
      alookup (writer_cm fs0 (parent ++ [name]) cfg rand action).2.dirs q =
        alookup fs1.dirs q) := by
  have hf2 : fs2.files = fs0.files := reach_files hp hm
  have hd2 : ∀ q, q ≠ parent ++ [tempDirName name rand] →
      alookup fs2.dirs q = alookup fs1.dirs q := by
    intro q hq
    rw [(mkdir_ok_inv hm).1]
    exact alookup_aset_ne _ _ _ _ hq
  have hddest : alookup fs1.dirs (parent ++ [name]) =
      alookup fs0.dirs (parent ++ [name]) := by
    have h1 := provision_dirs_frame cfg (prefixList parent) fs0 (parent ++ [name])
      (dest_not_mem_prefixList parent name)
    rw [hp] at h1
    exact h1
  have hdestne : parent ++ [name] ≠ parent ++ [tempDirName name rand] :=
    tempDir_ne_dest parent name rand
  rcases hact with rfl | ⟨c, rfl⟩
  · rw [writer_cm_reach_raise e hp hm]
    refine ⟨rfl, ?_, ?_, stagingFree_cleanupTemp _ _, fun q hq => ?_⟩
    · show alookup (cleanupTemp fs2 (parent ++ [tempDirName name rand])).files
        (parent ++ [name]) = alookup fs0.files (parent ++ [name])
      rw [alookup_cleanup_files _ _ _ (dest_not_in_temp parent name rand), hf2]
    · show alookup (cleanupTemp fs2 (parent ++ [tempDirName name rand])).dirs
        (parent ++ [name]) = alookup fs0.dirs (parent ++ [name])
      rw [alookup_cleanup_dirs _ _ _ (dest_not_in_temp parent name rand),
        hd2 _ hdestne, hddest]
    · show alookup (cleanupTemp fs2 (parent ++ [tempDirName name rand])).dirs q =
        alookup fs1.dirs q
      rw [alookup_cleanup_dirs _ _ _ (ancestor_not_in_temp parent name rand hq),
        hd2 _ (ne_temp_of_short parent name rand hq)]
  · rw [writer_cm_reach_writeRaise c e hp hm]
    refine ⟨rfl, ?_, ?_, stagingFree_cleanupTemp _ _, fun q hq => ?_⟩
    · show alookup (cleanupTemp (writeFile fs2 ((parent ++ [tempDirName name rand]) ++ [name]) c) (parent ++ [tempDirName name rand])).files (parent ++ [name]) = alookup fs0.files (parent ++ [name])
      rw [alookup_cleanup_files _ _ _ (dest_not_in_temp parent name rand),
        writeFile_lookup_ne _ _ _ _ (dest_ne_src parent name rand), hf2]
    · show alookup (cleanupTemp (writeFile fs2 ((parent ++ [tempDirName name rand]) ++ [name]) c) (parent ++ [tempDirName name rand])).dirs (parent ++ [name]) = alookup fs0.dirs (parent ++ [name])
      rw [alookup_cleanup_dirs _ _ _ (dest_not_in_temp parent name rand)]
      show alookup fs2.dirs (parent ++ [name]) = alookup fs0.dirs (parent ++ [name])
      rw [hd2 _ hdestne, hddest]
    · show alookup (cleanupTemp (writeFile fs2 ((parent ++ [tempDirName name rand]) ++ [name]) c) (parent ++ [tempDirName name rand])).dirs q = alookup fs1.dirs q
      rw [alookup_cleanup_dirs _ _ _ (ancestor_not_in_temp parent name rand hq)]
      show alookup fs2.dirs q = alookup fs1.dirs q
      rw [hd2 _ (ne_temp_of_short parent name rand hq)]

/-- Witness for C3: the caller writes `[1]` then raises on `fsTmpFile`; the
error propagates, `/tmp/file.txt` keeps `[9]`, staging is gone. -/
theorem c3_caller_error_witness :
    (writer_cm fsTmpFile (["tmp"] ++ ["file.txt"]) {} "R" (.writeThenRaise [1] (.callerError 7))).1 = some (.callerError 7) ∧
    alookup (writer_cm fsTmpFile (["tmp"] ++ ["file.txt"]) {} "R" (.writeThenRaise [1] (.callerError 7))).2.files (["tmp"] ++ ["file.txt"]) = alookup fsTmpFile.files (["tmp"] ++ ["file.txt"]) ∧
    alookup (writer_cm fsTmpFile (["tmp"] ++ ["file.txt"]) {} "R" (.writeThenRaise [1] (.callerError 7))).2.dirs (["tmp"] ++ ["file.txt"]) = alookup fsTmpFile.dirs (["tmp"] ++ ["file.txt"]) ∧
    stagingFree (writer_cm fsTmpFile (["tmp"] ++ ["file.txt"]) {} "R" (.writeThenRaise [1] (.callerError 7))).2 (["tmp"] ++ [tempDirName "file.txt" "R"]) = true ∧
    (∀ q, q.length ≤ (["tmp"] : AbsPath).length →
      alookup (writer_cm fsTmpFile (["tmp"] ++ ["file.txt"]) {} "R" (.writeThenRaise [1] (.callerError 7))).2.dirs q = alookup fsTmpFile.dirs q) :=
  c3_caller_error fsTmpFile fsTmpFile
    ⟨[(["tmp", "file.txtR.tmp"], ⟨0o700, none, none⟩), (["tmp"], ⟨0o755, none, none⟩)],
     [(["tmp", "file.txt"], ⟨[9], 0o600, none, none⟩)], [], true⟩
    ["tmp"] "file.txt" "R" {} (.writeThenRaise [1] (.callerError 7)) (.callerError 7)
    (Or.inr ⟨[1], rfl⟩) rfl rfl

/-- Claim C10: if the scope exits normally but never created the staging
file, publish raises `FileNotFoundError` for the staging path, the
destination is untouched, and the staging directory is still removed. -/
theorem c10_missing_staging_file (fs0 fs1 fs2 : FS) (parent : AbsPath)
    (name rand : String) (cfg : Config)
    (hp : provision cfg fs0 (prefixList parent) = .ok fs1)
    (hm : mkdir fs1 (parent ++ [tempDirName name rand]) 0o700 = .ok fs2)
    (hsrc0 : alookup fs0.files ((parent ++ [tempDirName name rand]) ++ [name]) = none) :
    (writer_cm fs0 (parent ++ [name]) cfg rand .noWrite).1 =
      some (.fileNotFoundError ((parent ++ [tempDirName name rand]) ++ [name])) ∧
    alookup (writer_cm fs0 (parent ++ [name]) cfg rand .noWrite).2.files
      (parent ++ [name]) = alookup fs0.files (parent ++ [name]) ∧
    stagingFree (writer_cm fs0 (parent ++ [name]) cfg rand .noWrite).2
      (parent ++ [tempDirName name rand]) = true := by
  rw [writer_cm_reach_noWrite hp hm]
  have hsrc2 : alookup fs2.files ((parent ++ [tempDirName name rand]) ++ [name]) = none := by
    rw [reach_files hp hm]
    exact hsrc0
  have hpub : (if cfg.overwrite then replace_atomic fs2 ((parent ++ [tempDirName name rand]) ++ [name]) (parent ++ [name]) else move_atomic fs2 ((parent ++ [tempDirName name rand]) ++ [name]) (parent ++ [name])) = .error (.fileNotFoundError ((parent ++ [tempDirName name rand]) ++ [name])) := by
    cases hov : cfg.overwrite with
    | true =>
      rw [if_pos rfl]
      exact replace_atomic_of_none hsrc2
    | false =>
      rw [if_neg (by simp)]
      exact move_atomic_of_none hsrc2
  rw [afterYield_of_pub_err hpub]
  refine ⟨rfl, ?_, stagingFree_cleanupTemp _ _⟩
  show alookup (cleanupTemp fs2 (parent ++ [tempDirName name rand])).files
    (parent ++ [name]) = alookup fs0.files (parent ++ [name])
  rw [alookup_cleanup_files _ _ _ (dest_not_in_temp parent name rand), reach_files hp hm]

/-- Witness for C10: a scope on `fsTmp` that writes nothing ends in
`FileNotFoundError` for the staging path. -/
theorem c10_missing_staging_file_witness :
    (writer_cm fsTmp (["tmp"] ++ ["file.txt"]) {} "R" .noWrite).1 =
      some (.fileNotFoundError ((["tmp"] ++ [tempDirName "file.txt" "R"]) ++ ["file.txt"])) ∧
    alookup (writer_cm fsTmp (["tmp"] ++ ["file.txt"]) {} "R" .noWrite).2.files
      (["tmp"] ++ ["file.txt"]) = alookup fsTmp.files (["tmp"] ++ ["file.txt"]) ∧
    stagingFree (writer_cm fsTmp (["tmp"] ++ ["file.txt"]) {} "R" .noWrite).2
      (["tmp"] ++ [tempDirName "file.txt" "R"]) = true :=
  c10_missing_staging_file fsTmp fsTmp
    ⟨[(["tmp", "file.txtR.tmp"], ⟨0o700, none, none⟩), (["tmp"], ⟨0o755, none, none⟩)],
     [], [], true⟩
    ["tmp"] "file.txt" "R" {} rfl rfl rfl

end WriterCM

/-! ## Provisioning-chain lemmas for Claim C6 -/

namespace WriterCM

theorem opt_if_self {α : Type} (o : Option α) :
    (if o.isSome then o else none) = o := by
  cases o <;> rfl

theorem chainFrom_eq_map (p : List String) : ∀ (base : AbsPath),
    (List.range p.length).map (fun i => base ++ p.take (i + 1)) =
      chainFrom base p := by
  induction p with
  | nil => intro base; rfl
  | cons x xs ih =>
    intro base
    rw [List.length_cons, List.range_succ_eq_map, List.map_cons, List.map_map]
    rw [chainFrom]
    congr 1
    have heq : ((fun i => base ++ (x :: xs).take (i + 1)) ∘ Nat.succ) =
        (fun i => (base ++ [x]) ++ xs.take (i + 1)) := by
      funext i
      show base ++ (x :: xs).take (i + 1 + 1) = (base ++ [x]) ++ xs.take (i + 1)
      rw [List.take_succ_cons, List.append_cons]
    rw [heq, ih]

theorem prefixList_eq (p : AbsPath) : prefixList p = [] :: chainFrom [] p := by
  unfold prefixList
  rw [List.range_succ_eq_map, List.map_cons, List.map_map]
  congr 1
  have heq : ((fun i => p.take i) ∘ Nat.succ) = (fun i => ([] : AbsPath) ++ p.take (i + 1)) := by
    funext i
    simp
  rw [heq, chainFrom_eq_map]

theorem provisionStep_root (cfg : Config) (fs : FS) :
    provisionStep cfg fs [] = .ok fs := by
  have hmk : mkdir fs [] 0o777 = .error (.fileExistsError []) := by
    unfold mkdir
    rw [if_pos (by simp [FS.exists', FS.isDir])]
  simp [provisionStep, hmk, suppressedErr]

theorem mem_chainFrom_length {q : AbsPath} : ∀ {l : List String} {base : AbsPath},
    q ∈ chainFrom base l →
    base.length < q.length ∧ q.length ≤ base.length + l.length := by
  intro l
  induction l with
  | nil =>
    intro base h
    exact absurd h (List.not_mem_nil q)
  | cons x xs ih =>
    intro base h
    rw [chainFrom] at h
    rcases List.mem_cons.mp h with heq | h2
    · subst heq
      constructor <;> simp
    · obtain ⟨ha, hb⟩ := ih h2
      rw [List.length_append, List.length_cons, List.length_nil] at ha hb
      rw [List.length_cons]
      omega

theorem provisionStep_exists (cfg : Config) {fs : FS} {p : AbsPath}
    (hex : fs.exists' p = true) :
    provisionStep cfg fs p = .ok fs := by
  have hmk : mkdir fs p 0o777 = .error (.fileExistsError p) := by
    unfold mkdir
    rw [if_pos hex]
  simp [provisionStep, hmk, suppressedErr]

theorem provisionStep_create (cfg : Config) {fs : FS} {p : AbsPath}
    (hex : fs.exists' p = false)
    (hpar : fs.isDir (parentOf p) = true)
    (huw : fs.unwritableDirs = [])
    (hca : (cfg.user.isSome || cfg.group.isSome) = true → fs.chownAllowed = true) :
    ∃ fsS, provisionStep cfg fs p = .ok fsS ∧
      fsS.files = fs.files ∧
      fsS.unwritableDirs = fs.unwritableDirs ∧
      fsS.chownAllowed = fs.chownAllowed ∧
      alookup fsS.dirs p = some ⟨cfg.dir_perms, cfg.user, cfg.group⟩ ∧
      (∀ q, q ≠ p → alookup fsS.dirs q = alookup fs.dirs q) := by
  have hnf : alookup fs.files p = none := by
    unfold FS.exists' FS.isDir FS.isFile at hex
    rw [Bool.or_eq_false_iff, Bool.or_eq_false_iff] at hex
    exact Option.not_isSome_iff_eq_none.mp (by simp [hex.2])
  have hnd : alookup fs.dirs p = none := by
    unfold FS.exists' FS.isDir FS.isFile at hex
    rw [Bool.or_eq_false_iff, Bool.or_eq_false_iff] at hex
    exact Option.not_isSome_iff_eq_none.mp (by simp [hex.1.2])
  have hmk : mkdir fs p 0o777 = .ok { fs with dirs := aset fs.dirs p ⟨0o777, none, none⟩ } := by
    unfold mkdir
    rw [if_neg (by simp [hex]), if_neg (by simp [hpar]), if_neg (by simp [huw])]
  have hcm : chmod { fs with dirs := aset fs.dirs p ⟨0o777, none, none⟩ } p cfg.dir_perms = .ok { fs with dirs := aset (aset fs.dirs p ⟨0o777, none, none⟩) p ⟨cfg.dir_perms, none, none⟩ } := by
    unfold chmod
    simp only [hnf, alookup_aset_self]
  by_cases hu : (cfg.user.isSome || cfg.group.isSome) = true
  · have hcaT : fs.chownAllowed = true := hca hu
    have hco : chown { fs with dirs := aset (aset fs.dirs p ⟨0o777, none, none⟩) p ⟨cfg.dir_perms, none, none⟩ } p cfg.user cfg.group = .ok { fs with dirs := aset (aset (aset fs.dirs p ⟨0o777, none, none⟩) p ⟨cfg.dir_perms, none, none⟩) p ⟨cfg.dir_perms, (if cfg.user.isSome then cfg.user else none), (if cfg.group.isSome then cfg.group else none)⟩ } := by
      unfold chown
      simp only [hnf, alookup_aset_self, hcaT, if_true]
    have hstep : provisionStep cfg fs p = .ok { fs with dirs := aset (aset (aset fs.dirs p ⟨0o777, none, none⟩) p ⟨cfg.dir_perms, none, none⟩) p ⟨cfg.dir_perms, (if cfg.user.isSome then cfg.user else none), (if cfg.group.isSome then cfg.group else none)⟩ } := by
      simp [provisionStep, hmk, hcm, hu, hco]
    refine ⟨_, hstep, rfl, rfl, rfl, ?_, fun q hq => ?_⟩
    · have hmeta : (⟨cfg.dir_perms, (if cfg.user.isSome then cfg.user else none), (if cfg.group.isSome then cfg.group else none)⟩ : DirMeta) = ⟨cfg.dir_perms, cfg.user, cfg.group⟩ := by
        rw [opt_if_self, opt_if_self]
      rw [← hmeta]
      exact alookup_aset_self _ _ _
    · have h6 : alookup (aset (aset (aset fs.dirs p ⟨0o777, none, none⟩) p ⟨cfg.dir_perms, none, none⟩) p ⟨cfg.dir_perms, (if cfg.user.isSome then cfg.user else none), (if cfg.group.isSome then cfg.group else none)⟩) q = alookup fs.dirs q := by
        rw [alookup_aset_ne _ _ _ _ hq, alookup_aset_ne _ _ _ _ hq, alookup_aset_ne _ _ _ _ hq]
      exact h6
  · have hstep : provisionStep cfg fs p = .ok { fs with dirs := aset (aset fs.dirs p ⟨0o777, none, none⟩) p ⟨cfg.dir_perms, none, none⟩ } := by
      simp [provisionStep, hmk, hcm, hu]
    have hu2 : cfg.user = none ∧ cfg.group = none := by
      constructor
      · cases hq : cfg.user with
        | none => rfl
        | some a => exact absurd (by simp [hq]) hu
      · cases hq : cfg.group with
        | none => rfl
        | some a => exact absurd (by simp [hq]) hu
    refine ⟨_, hstep, rfl, rfl, rfl, ?_, fun q hq => ?_⟩
    · have h5 : alookup (aset (aset fs.dirs p ⟨0o777, none, none⟩) p ⟨cfg.dir_perms, none, none⟩) p = some ⟨cfg.dir_perms, none, none⟩ := alookup_aset_self _ _ _
      rw [h5, hu2.1, hu2.2]
    · have h6 : alookup (aset (aset fs.dirs p ⟨0o777, none, none⟩) p ⟨cfg.dir_perms, none, none⟩) q = alookup fs.dirs q := by
        rw [alookup_aset_ne _ _ _ _ hq, alookup_aset_ne _ _ _ _ hq]
      exact h6

end WriterCM

namespace WriterCM

theorem provision_chain (cfg : Config) (ps : List String) :
    ∀ (base : AbsPath) (fs : FS),
    fs.isDir base = true →
    fs.unwritableDirs = [] →
    ((cfg.user.isSome || cfg.group.isSome) = true → fs.chownAllowed = true) →
    (∀ q ∈ chainFrom base ps, alookup fs.files q = none) →
    ∃ fs', provision cfg fs (chainFrom base ps) = .ok fs' ∧
      fs'.files = fs.files ∧
      fs'.unwritableDirs = fs.unwritableDirs ∧
      fs'.chownAllowed = fs.chownAllowed ∧
      (∀ q, q ∉ chainFrom base ps → alookup fs'.dirs q = alookup fs.dirs q) ∧
      (∀ q ∈ chainFrom base ps, ∀ md, alookup fs.dirs q = some md →
        alookup fs'.dirs q = some md) ∧
      (∀ q ∈ chainFrom base ps, alookup fs.dirs q = none →
        alookup fs'.dirs q = some ⟨cfg.dir_perms, cfg.user, cfg.group⟩) := by
  induction ps with
  | nil =>
    intro base fs _ _ _ _
    exact ⟨fs, rfl, rfl, rfl, rfl, fun q _ => rfl,
      fun q hq => absurd hq (List.not_mem_nil q),
      fun q hq => absurd hq (List.not_mem_nil q)⟩
  | cons x xs ih =>
    intro base fs hdir huw hca hnf
    have hnfx : alookup fs.files (base ++ [x]) = none :=
      hnf _ (by simp only [chainFrom]; exact List.mem_cons_self _ _)
    have htail_ne : ∀ q ∈ chainFrom (base ++ [x]) xs, q ≠ base ++ [x] := by
      intro q hq heq
      have h1 := (mem_chainFrom_length hq).1
      rw [heq] at h1
      exact absurd h1 (lt_irrefl _)
    have hx_notin : (base ++ [x]) ∉ chainFrom (base ++ [x]) xs := by
      intro hmem
      exact absurd (mem_chainFrom_length hmem).1 (lt_irrefl _)
    cases hd : alookup fs.dirs (base ++ [x]) with
    | some md =>
      have hex : fs.exists' (base ++ [x]) = true := by
        unfold FS.exists' FS.isDir
        rw [hd]
        simp
      have hstep := provisionStep_exists cfg hex
      have hdir2 : fs.isDir (base ++ [x]) = true := by
        unfold FS.isDir
        rw [hd]
        simp
      obtain ⟨fs', hpv, f1, f2, f3, f5, f6, f7⟩ := ih (base ++ [x]) fs hdir2 huw hca
        (fun q hq => hnf q (by simp only [chainFrom]; exact List.mem_cons_of_mem _ hq))
      refine ⟨fs', ?_, f1, f2, f3, ?_, ?_, ?_⟩
      · simp only [chainFrom]
        simp [provision, hstep, hpv]
      · intro q hq
        simp only [chainFrom, List.mem_cons, not_or] at hq
        exact f5 q hq.2
      · intro q hq md2 hmd
        simp only [chainFrom, List.mem_cons] at hq
        rcases hq with rfl | hq2
        · rw [f5 _ hx_notin]
          exact hmd
        · exact f6 q hq2 md2 hmd
      · intro q hq hnone
        simp only [chainFrom, List.mem_cons] at hq
        rcases hq with rfl | hq2
        · rw [hnone] at hd
          exact absurd hd (by simp)
        · exact f7 q hq2 hnone
    | none =>
      have hex : fs.exists' (base ++ [x]) = false := by
        unfold FS.exists' FS.isDir FS.isFile
        rw [hd, hnfx]
        simp
      have hpar : fs.isDir (parentOf (base ++ [x])) = true := by
        rw [parentOf_concat]
        exact hdir
      obtain ⟨fsS, hstep, s1, s2, s3, s4, s5⟩ := provisionStep_create cfg hex hpar huw hca
      have hdirS : fsS.isDir (base ++ [x]) = true := by
        unfold FS.isDir
        rw [s4]
        simp
      have huwS : fsS.unwritableDirs = [] := by rw [s2, huw]
      have hcaS : (cfg.user.isSome || cfg.group.isSome) = true →
          fsS.chownAllowed = true := fun hu => by rw [s3]; exact hca hu
      have hnfS : ∀ q ∈ chainFrom (base ++ [x]) xs, alookup fsS.files q = none := by
        intro q hq
        rw [s1]
        exact hnf q (by simp only [chainFrom]; exact List.mem_cons_of_mem _ hq)
      obtain ⟨fs', hpv, f1, f2, f3, f5, f6, f7⟩ := ih (base ++ [x]) fsS hdirS huwS hcaS hnfS
      refine ⟨fs', ?_, ?_, ?_, ?_, ?_, ?_, ?_⟩
      · simp only [chainFrom]
        simp [provision, hstep, hpv]
      · rw [f1, s1]
      · rw [f2, s2]
      · rw [f3, s3]
      · intro q hq
        simp only [chainFrom, List.mem_cons, not_or] at hq
        rw [f5 q hq.2, s5 q hq.1]
      · intro q hq md2 hmd
        simp only [chainFrom, List.mem_cons] at hq
        rcases hq with rfl | hq2
        · rw [hmd] at hd
          exact absurd hd (by simp)
        · refine f6 q hq2 md2 ?_
          rw [s5 q (htail_ne q hq2)]
          exact hmd
      · intro q hq hnone
        simp only [chainFrom, List.mem_cons] at hq
        rcases hq with rfl | hq2
        · rw [f5 _ hx_notin]
          exact s4
        · refine f7 q hq2 ?_
          rw [s5 q (htail_ne q hq2)]
          exact hnone

end WriterCM

/-! ## Claim C6: directory provisioning -/

namespace WriterCM

theorem move_atomic_ok_dirs {fs R : FS} {src dst : AbsPath}
    (h : move_atomic fs src dst = .ok R) : R.dirs = fs.dirs := by
  unfold move_atomic at h
  split at h
  · exact absurd h (by simp)
  · split at h
    · exact absurd h (by simp)
    · cases Except.ok.inj h
      rfl

theorem replace_atomic_ok_dirs {fs R : FS} {src dst : AbsPath}
    (h : replace_atomic fs src dst = .ok R) : R.dirs = fs.dirs := by
  unfold replace_atomic at h
  split at h
  · exact absurd h (by simp)
  · cases Except.ok.inj h
    rfl

theorem set_properties_dirs_frame (fs : FS) (p : AbsPath) (perms : Nat)
    (u g : Option String) (q : AbsPath) (hq : q ≠ p) :
    alookup (stateOf (set_properties fs p perms u g)).dirs q =
      alookup fs.dirs q := by
  cases hc : chmod fs p perms with
  | error e => simp [set_properties, hc, stateOf]
  | ok fs1 =>
    have h1 := chmod_ok_dirs_frame hc hq
    by_cases hu : (u.isSome || g.isSome) = true
    · cases hw : chown fs1 p u g with
      | error e => simp [set_properties, hc, hu, hw, stateOf, h1]
      | ok fs2 =>
        have h2 := chown_ok_dirs_frame hw hq
        simp [set_properties, hc, hu, hw, stateOf, h2, h1]
    · simp [set_properties, hc, hu, stateOf, h1]

theorem runCaller_dirs (fs : FS) (src : AbsPath) (a : CallerAction) :
    (stateOf (runCaller fs src a)).dirs = fs.dirs := by
  cases a <;> rfl

theorem afterYield_dirs_frame {cfg : Config} {src dest tempDir : AbsPath}
    {fs3 : FS} {q : AbsPath}
    (hq2 : ¬(q = tempDir ∨ tempDir.isPrefixOf q = true))
    (hq3 : q ≠ dest) :
    alookup (afterYield cfg src dest tempDir fs3).2.dirs q =
      alookup fs3.dirs q := by
  cases hpub : (if cfg.overwrite then replace_atomic fs3 src dest
                else move_atomic fs3 src dest) with
  | error e =>
    rw [afterYield_of_pub_err hpub]
    exact alookup_cleanup_dirs _ _ _ hq2
  | ok R =>
    have hRd : R.dirs = fs3.dirs := by
      cases hov : cfg.overwrite with
      | true =>
        simp only [hov, if_true] at hpub
        exact replace_atomic_ok_dirs hpub
      | false =>
        simp only [hov, Bool.false_eq_true, if_false] at hpub
        exact move_atomic_ok_dirs hpub
    cases hsp : set_properties R dest cfg.file_perms cfg.user cfg.group with
    | error epair =>
      obtain ⟨e, fs5⟩ := epair
      rw [afterYield_of_sp_err hpub hsp, alookup_cleanup_dirs _ _ _ hq2]
      have h5 : alookup fs5.dirs q = alookup R.dirs q := by
        have h := set_properties_dirs_frame R dest cfg.file_perms cfg.user cfg.group q hq3
        rw [hsp] at h
        exact h
      rw [h5, hRd]
    | ok fs5 =>
      rw [afterYield_of_sp_ok hpub hsp, alookup_cleanup_dirs _ _ _ hq2]
      have h5 : alookup fs5.dirs q = alookup R.dirs q := by
        have h := set_properties_dirs_frame R dest cfg.file_perms cfg.user cfg.group q hq3
        rw [hsp] at h
        exact h
      rw [h5, hRd]

theorem withTempDir_dirs_frame {cfg : Config} {parent : AbsPath}
    {name rand : String} {fs1 : FS} (action : CallerAction) {q : AbsPath}
    (hq2 : ¬(q = parent ++ [tempDirName name rand] ∨
      (parent ++ [tempDirName name rand]).isPrefixOf q = true))
    (hq3 : q ≠ parent ++ [name]) :
    alookup (withTempDir cfg (parent ++ [name]) parent name rand action fs1).2.dirs q =
      alookup fs1.dirs q := by
  cases hm : mkdir fs1 (parent ++ [tempDirName name rand]) 0o700 with
  | error e =>
    rw [withTempDir_error action hm]
  | ok fs2 =>
    rw [withTempDir_ok action hm]
    have hq1 : q ≠ parent ++ [tempDirName name rand] := fun h => hq2 (Or.inl h)
    have hd2 : alookup fs2.dirs q = alookup fs1.dirs q := by
      rw [(mkdir_ok_inv hm).1]
      exact alookup_aset_ne _ _ _ _ hq1
    cases hrc : runCaller fs2 ((parent ++ [tempDirName name rand]) ++ [name]) action with
    | error epair =>
      obtain ⟨e, fs3⟩ := epair
      have hd3 : fs3.dirs = fs2.dirs := by
        have h := runCaller_dirs fs2 ((parent ++ [tempDirName name rand]) ++ [name]) action
        rw [hrc] at h
        exact h
      show alookup (cleanupTemp fs3 (parent ++ [tempDirName name rand])).dirs q =
        alookup fs1.dirs q
      rw [alookup_cleanup_dirs _ _ _ hq2, hd3, hd2]
    | ok fs3 =>
      have hd3 : fs3.dirs = fs2.dirs := by
        have h := runCaller_dirs fs2 ((parent ++ [tempDirName name rand]) ++ [name]) action
        rw [hrc] at h
        exact h
      show alookup (afterYield cfg ((parent ++ [tempDirName name rand]) ++ [name]) (parent ++ [name]) (parent ++ [tempDirName name rand]) fs3).2.dirs q = alookup fs1.dirs q
      rw [afterYield_dirs_frame hq2 hq3, hd3, hd2]

/-- Claim C6: for a destination nested under non-existent ancestor
directories (with writable parents and, when ownership is requested, the
privilege to apply it), after the operation every missing ancestor exists
and carries exactly the configured directory permission bits and the
configured ownership, while ancestors that already existed keep their
original metadata untouched. -/
theorem c6_directory_provisioning (fs0 : FS) (parent : AbsPath)
    (name rand : String) (cfg : Config) (action : CallerAction)
    (huw : fs0.unwritableDirs = [])
    (hca : (cfg.user.isSome || cfg.group.isSome) = true → fs0.chownAllowed = true)
    (hnf : ∀ q ∈ chainFrom [] parent, alookup fs0.files q = none) :
    (∀ q ∈ chainFrom [] parent, alookup fs0.dirs q = none →
      alookup (writer_cm fs0 (parent ++ [name]) cfg rand action).2.dirs q =
        some ⟨cfg.dir_perms, cfg.user, cfg.group⟩) ∧
    (∀ q ∈ chainFrom [] parent, ∀ md, alookup fs0.dirs q = some md →
      alookup (writer_cm fs0 (parent ++ [name]) cfg rand action).2.dirs q =
        some md) := by
  obtain ⟨fs1, hpv, f1, f2, f3, f5, f6, f7⟩ :=
    provision_chain cfg parent [] fs0 (by simp [FS.isDir]) huw hca hnf
  have hp : provision cfg fs0 (prefixList parent) = .ok fs1 := by
    rw [prefixList_eq]
    simp [provision, provisionStep_root, hpv]
  have hframe : ∀ q ∈ chainFrom [] parent,
      alookup (writer_cm fs0 (parent ++ [name]) cfg rand action).2.dirs q =
        alookup fs1.dirs q := by
    intro q hq
    have hlen : q.length ≤ parent.length := by
      have h2 := (mem_chainFrom_length hq).2
      simpa using h2
    rw [writer_cm_ok rand action hp]
    refine withTempDir_dirs_frame action
      (ancestor_not_in_temp parent name rand hlen) (fun h => ?_)
    have h3 := mem_chainFrom_length hq
    rw [h] at h3
    simp only [List.length_append, List.length_cons, List.length_nil] at h3
    omega
  constructor
  · intro q hq hnone
    rw [hframe q hq]
    exact f7 q hq hnone
  · intro q hq md hmd
    rw [hframe q hq]
    exact f6 q hq md hmd

/-- Witness for C6: `/tmp` pre-exists with mode 0o755 and `/tmp/x` is
created with the default directory permissions during
`writer_cm(/tmp/x/f)`. -/
theorem c6_directory_provisioning_witness :
    (∀ q ∈ chainFrom [] ["tmp", "x"], alookup fsTmp.dirs q = none →
      alookup (writer_cm fsTmp (["tmp", "x"] ++ ["f"]) {} "R" (.write [1])).2.dirs q =
        some ⟨0o750, none, none⟩) ∧
    (∀ q ∈ chainFrom [] ["tmp", "x"], ∀ md, alookup fsTmp.dirs q = some md →
      alookup (writer_cm fsTmp (["tmp", "x"] ++ ["f"]) {} "R" (.write [1])).2.dirs q =
        some md) :=
  c6_directory_provisioning fsTmp ["tmp", "x"] "f" "R" {} (.write [1])
    rfl (by decide) (by decide)

end WriterCM

/-! ## Claim C7: file permissions and ownership on the destination -/

namespace WriterCM

/-- Claim C7: on a run whose publish step succeeds, and where the process is
able to apply the requested ownership, the destination's permission bits
afterwards equal the configured file permission bits exactly (no other bits
set), and the configured user/group ownership is applied when specified. -/
theorem c7_file_properties (fs0 fs1 fs2 fs4 : FS) (parent : AbsPath)
    (name rand : String) (cfg : Config) (c : Content)
    (hp : provision cfg fs0 (prefixList parent) = .ok fs1)
    (hm : mkdir fs1 (parent ++ [tempDirName name rand]) 0o700 = .ok fs2)
    (hpub : (if cfg.overwrite then replace_atomic (writeFile fs2 ((parent ++ [tempDirName name rand]) ++ [name]) c) ((parent ++ [tempDirName name rand]) ++ [name]) (parent ++ [name]) else move_atomic (writeFile fs2 ((parent ++ [tempDirName name rand]) ++ [name]) c) ((parent ++ [tempDirName name rand]) ++ [name]) (parent ++ [name])) = .ok fs4)
    (hca : (cfg.user.isSome || cfg.group.isSome) = true → fs0.chownAllowed = true) :
    (writer_cm fs0 (parent ++ [name]) cfg rand (.write c)).1 = none ∧
    alookup (writer_cm fs0 (parent ++ [name]) cfg rand (.write c)).2.files
      (parent ++ [name]) = some ⟨c, cfg.file_perms, cfg.user, cfg.group⟩ := by
  rw [writer_cm_reach_write c hp hm]
  have hsrc := writeFile_lookup_self fs2 ((parent ++ [tempDirName name rand]) ++ [name]) c
  have h4 : alookup fs4.files (parent ++ [name]) = some (⟨c, 0o644, none, none⟩ : FileMeta) ∧
      fs4.chownAllowed = fs2.chownAllowed := by
    cases hov : cfg.overwrite with
    | true =>
      simp only [hov, if_true] at hpub
      rw [replace_atomic_of_some hsrc] at hpub
      cases Except.ok.inj hpub
      exact ⟨alookup_aset_self _ _ _, rfl⟩
    | false =>
      simp only [hov, Bool.false_eq_true, if_false] at hpub
      rw [move_atomic_of_some hsrc] at hpub
      split at hpub
      · exact absurd hpub (by simp)
      · cases Except.ok.inj hpub
        exact ⟨alookup_aset_self _ _ _, rfl⟩
  obtain ⟨fs5, hsp, h5look, _h5frame, _h5dirs⟩ :=
    set_properties_file h4.1
      (fun hu => by rw [h4.2, reach_chownAllowed hp hm]; exact hca hu)
  rw [afterYield_of_sp_ok hpub hsp]
  refine ⟨rfl, ?_⟩
  show alookup (cleanupTemp fs5 (parent ++ [tempDirName name rand])).files
    (parent ++ [name]) = some ⟨c, cfg.file_perms, cfg.user, cfg.group⟩
  rw [alookup_cleanup_files _ _ _ (dest_not_in_temp parent name rand), h5look]
  simp [opt_if_self]

/-- Witness for C7: `writer_cm(/tmp/f, user="alice")` writes `[7]`; the
destination ends with mode 0o600 owned by alice. -/
theorem c7_file_properties_witness :
    (writer_cm fsTmp (["tmp"] ++ ["f"]) cfgAlice "R" (.write [7])).1 = none ∧
    alookup (writer_cm fsTmp (["tmp"] ++ ["f"]) cfgAlice "R" (.write [7])).2.files
      (["tmp"] ++ ["f"]) = some ⟨[7], 0o600, some "alice", none⟩ :=
  c7_file_properties fsTmp fsTmp
    ⟨[(["tmp", "fR.tmp"], ⟨0o700, none, none⟩), (["tmp"], ⟨0o755, none, none⟩)], [], [], true⟩
    ⟨[(["tmp", "fR.tmp"], ⟨0o700, none, none⟩), (["tmp"], ⟨0o755, none, none⟩)],
     [(["tmp", "f"], ⟨[7], 0o644, none, none⟩)], [], true⟩
    ["tmp"] "f" "R" cfgAlice [7] rfl rfl rfl (by decide)

end WriterCM

/-! ## Claims C8 and C9: error suppression during provisioning -/

namespace WriterCM

theorem bool_eq_false_of_not {b : Bool} (h : ¬ b = true) : b = false := by
  cases hb : b
  · rfl
  · exact absurd hb h

theorem provisionStep_suppresses_mkdir_err (cfg : Config) (fs : FS)
    (p : AbsPath) (e : PyErr) (hmk : mkdir fs p 0o777 = .error e)
    (hs : suppressedErr e = true) : provisionStep cfg fs p = .ok fs := by
  simp [provisionStep, hmk, hs]

theorem provisionStep_suppresses_chown_err (cfg : Config) (fs fs1 fs2 : FS)
    (p : AbsPath) (e : PyErr)
    (hmk : mkdir fs p 0o777 = .ok fs1)
    (hcm : chmod fs1 p cfg.dir_perms = .ok fs2)
    (hu : (cfg.user.isSome || cfg.group.isSome) = true)
    (hw : chown fs2 p cfg.user cfg.group = .error e)
    (hs : suppressedErr e = true) : provisionStep cfg fs p = .ok fs2 := by
  simp [provisionStep, hmk, hcm, hu, hw, hs]

theorem provisionStep_error_not_suppressed (cfg : Config) (fs fsE : FS)
    (p : AbsPath) (e : PyErr) (h : provisionStep cfg fs p = .error (e, fsE)) :
    suppressedErr e = false := by
  cases hmk : mkdir fs p 0o777 with
  | error e2 =>
    by_cases hs : suppressedErr e2 = true
    · rw [provisionStep_suppresses_mkdir_err cfg fs p e2 hmk hs] at h
      exact absurd h (by simp)
    · have h2 : provisionStep cfg fs p = .error (e2, fs) := by
        simp [provisionStep, hmk, hs]
      rw [h2] at h
      have h3 := Except.error.inj h
      rw [Prod.mk.injEq] at h3
      rw [← h3.1]
      exact bool_eq_false_of_not hs
  | ok fs1 =>
    cases hcm : chmod fs1 p cfg.dir_perms with
    | error e2 =>
      by_cases hs : suppressedErr e2 = true
      · have h2 : provisionStep cfg fs p = .ok fs1 := by
          simp [provisionStep, hmk, hcm, hs]
        rw [h2] at h
        exact absurd h (by simp)
      · have h2 : provisionStep cfg fs p = .error (e2, fs1) := by
          simp [provisionStep, hmk, hcm, hs]
        rw [h2] at h
        have h3 := Except.error.inj h
        rw [Prod.mk.injEq] at h3
        rw [← h3.1]
        exact bool_eq_false_of_not hs
    | ok fs2 =>
      by_cases hu : (cfg.user.isSome || cfg.group.isSome) = true
      · cases hw : chown fs2 p cfg.user cfg.group with
        | error e2 =>
          by_cases hs : suppressedErr e2 = true
          · rw [provisionStep_suppresses_chown_err cfg fs fs1 fs2 p e2 hmk hcm hu hw hs] at h
            exact absurd h (by simp)
          · have h2 : provisionStep cfg fs p = .error (e2, fs2) := by
              simp [provisionStep, hmk, hcm, hu, hw, hs]
            rw [h2] at h
            have h3 := Except.error.inj h
            rw [Prod.mk.injEq] at h3
            rw [← h3.1]
            exact bool_eq_false_of_not hs
        | ok fs3 =>
          have h2 : provisionStep cfg fs p = .ok fs3 := by
            simp [provisionStep, hmk, hcm, hu, hw]
          rw [h2] at h
          exact absurd h (by simp)
      · have h2 : provisionStep cfg fs p = .ok fs2 := by
          simp [provisionStep, hmk, hcm, hu]
        rw [h2] at h
        exact absurd h (by simp)

/-- Counterexample to C8 as stated: on `fsNoChown` (a process without the
chown privilege) with `user="alice"`, applying ownership to the freshly
created ancestor `/tmp/d` fails with `PermissionError`, yet the provisioning
step swallows the failure (`.ok`), the operation continues, and the
destination even gets published — the failure was not propagated to the
caller at that point. -/
theorem c8_counterexample :
    chown fsNoChownMid ["tmp", "d"] cfgAlice.user cfgAlice.group =
      .error .permissionError ∧
    provisionStep cfgAlice fsNoChown ["tmp", "d"] = .ok fsNoChownMid ∧
    (writer_cm fsNoChown ["tmp", "d", "f.txt"] cfgAlice "R" (.write [1])).1 =
      some .permissionError ∧
    readFile (writer_cm fsNoChown ["tmp", "d", "f.txt"] cfgAlice "R" (.write [1])).2
      ["tmp", "d", "f.txt"] = some [1] :=
  ⟨rfl, rfl, rfl, rfl⟩

/-- C8 amended: a permission/ownership application failure on the
destination after a successful publish is propagated unchanged to the
caller; an application failure on a newly created ancestor directory is
propagated only when its class is outside the suppressed set — a failure of
class `FileExistsError`, `IsADirectoryError` or `PermissionError` (such as
an unprivileged `chown`) is swallowed by the provisioning loop's `suppress`
block and the operation continues. -/
theorem c8_amended :
    (∀ (fs0 fs1 fs2 fs4 fs5 : FS) (parent : AbsPath) (name rand : String)
      (cfg : Config) (c : Content) (e : PyErr),
      provision cfg fs0 (prefixList parent) = .ok fs1 →
      mkdir fs1 (parent ++ [tempDirName name rand]) 0o700 = .ok fs2 →
      (if cfg.overwrite then replace_atomic (writeFile fs2 ((parent ++ [tempDirName name rand]) ++ [name]) c) ((parent ++ [tempDirName name rand]) ++ [name]) (parent ++ [name]) else move_atomic (writeFile fs2 ((parent ++ [tempDirName name rand]) ++ [name]) c) ((parent ++ [tempDirName name rand]) ++ [name]) (parent ++ [name])) = .ok fs4 →
      set_properties fs4 (parent ++ [name]) cfg.file_perms cfg.user cfg.group = .error (e, fs5) →
      (writer_cm fs0 (parent ++ [name]) cfg rand (.write c)).1 = some e) ∧
    (∀ (cfg : Config) (fs fs1 fs2 : FS) (p : AbsPath) (e : PyErr),
      mkdir fs p 0o777 = .ok fs1 →
      chmod fs1 p cfg.dir_perms = .ok fs2 →
      (cfg.user.isSome || cfg.group.isSome) = true →
      chown fs2 p cfg.user cfg.group = .error e →
      suppressedErr e = true →
      provisionStep cfg fs p = .ok fs2) := by
  constructor
  · intro fs0 fs1 fs2 fs4 fs5 parent name rand cfg c e hp hm hpub hsp
    rw [writer_cm_reach_write c hp hm, afterYield_of_sp_err hpub hsp]
  · exact provisionStep_suppresses_chown_err

/-- Witness for the amended C8: the destination-side `PermissionError` from
`shutil.chown` propagates out of the whole operation, while the same error
on the freshly created ancestor `/tmp/d` is swallowed. -/
theorem c8_amended_witness :
    (writer_cm fsNoChown (["tmp"] ++ ["f"]) cfgAlice "R" (.write [1])).1 =
      some .permissionError ∧
    provisionStep cfgAlice fsNoChown ["tmp", "d"] = .ok fsNoChownMid :=
  ⟨c8_amended.1 fsNoChown fsNoChown
      ⟨[(["tmp", "fR.tmp"], ⟨0o700, none, none⟩), (["tmp"], ⟨0o755, none, none⟩)], [], [], false⟩
      ⟨[(["tmp", "fR.tmp"], ⟨0o700, none, none⟩), (["tmp"], ⟨0o755, none, none⟩)],
       [(["tmp", "f"], ⟨[1], 0o644, none, none⟩)], [], false⟩
      ⟨[(["tmp", "fR.tmp"], ⟨0o700, none, none⟩), (["tmp"], ⟨0o755, none, none⟩)],
       [(["tmp", "f"], ⟨[1], 0o600, none, none⟩)], [], false⟩
      ["tmp"] "f" "R" cfgAlice [1] .permissionError rfl rfl rfl rfl,
   c8_amended.2 cfgAlice fsNoChown
      ⟨[(["tmp", "d"], ⟨0o777, none, none⟩), (["tmp"], ⟨0o755, none, none⟩)], [], [], false⟩
      fsNoChownMid ["tmp", "d"] .permissionError rfl rfl rfl rfl rfl⟩

/-- Counterexample to C9 as stated: not all errors during ancestor creation
are suppressed.  With `/a` existing but unwritable and two missing levels
below it, the `PermissionError` on creating `/a/b` is suppressed, but the
subsequent `mkdir("/a/b/c")` raises `FileNotFoundError`, which escapes the
provisioning loop itself — the misconfiguration does not wait for
staging-directory creation to surface. -/
theorem c9_counterexample :
    provision {} fsUnwritable (prefixList ["a", "b", "c"]) =
      .error (.fileNotFoundError ["a", "b", "c"], fsUnwritable) ∧
    (writer_cm fsUnwritable (["a", "b", "c"] ++ ["f.txt"]) {} "R" (.write [1])).1 =
      some (.fileNotFoundError ["a", "b", "c"]) ∧
    suppressedErr (.fileNotFoundError ["a", "b", "c"]) = false :=
  ⟨rfl, rfl, rfl⟩

/-- C9 amended: during ancestor-directory creation exactly the classes
`FileExistsError`, `IsADirectoryError` and `PermissionError` are suppressed
(a suppressed mkdir failure leaves the step a no-op, and no provisioning
step ever propagates an error of a suppressed class); when only a single
level is missing below a truly unwritable parent, the `PermissionError` is
swallowed and the misconfiguration surfaces later, as the less specific
`FileNotFoundError` of staging-directory creation. -/
theorem c9_amended :
    (∀ (cfg : Config) (fs : FS) (p : AbsPath) (e : PyErr),
      mkdir fs p 0o777 = .error e → suppressedErr e = true →
      provisionStep cfg fs p = .ok fs) ∧
    (∀ (cfg : Config) (fs fsE : FS) (p : AbsPath) (e : PyErr),
      provisionStep cfg fs p = .error (e, fsE) → suppressedErr e = false) ∧
    provision {} fsUnwritable (prefixList ["a", "b"]) = .ok fsUnwritable ∧
    (writer_cm fsUnwritable (["a", "b"] ++ ["f.txt"]) {} "R" (.write [1])).1 =
      some (.fileNotFoundError (["a", "b"] ++ [tempDirName "f.txt" "R"])) := by
  refine ⟨?_, ?_, rfl, rfl⟩
  · intro cfg fs p e hmk hs
    exact provisionStep_suppresses_mkdir_err cfg fs p e hmk hs
  · intro cfg fs fsE p e h
    exact provisionStep_error_not_suppressed cfg fs fsE p e h

/-- Witness for the amended C9: the suppressed `PermissionError` on
creating `/a/x`, and a non-suppressed `FileNotFoundError` escaping a
provisioning step. -/
theorem c9_amended_witness :
    provisionStep {} fsUnwritable ["a", "x"] = .ok fsUnwritable ∧
    suppressedErr (.fileNotFoundError ["a", "b"]) = false :=
  ⟨c9_amended.1 {} fsUnwritable ["a", "x"] .permissionError rfl rfl,
   c9_amended.2.1 {} ⟨[], [], [], true⟩ ⟨[], [], [], true⟩ ["a", "b"]
     (.fileNotFoundError ["a", "b"]) rfl⟩

end WriterCM
